import Mathlib

/-!
Verification development for the agentic tool-calling conversation engine of
the obsidian-github-copilot-mcp plugin.

The TypeScript sources embedded here:
  * src/copilot/api.ts   — sendChatCompletionStream: SSE tool-call fragment
    accumulation and finalization (the transport contract).
  * src/copilot/engine.ts — runChatEngine: the agentic loop, buildApiMessages,
    per-call argument parsing, tool dispatch, cancellation and error handling.
  * src/mcp/tools.ts     — executeVaultTool and the eleven vault operations.

Modelling conventions:
  * JavaScript strings are modelled by Lean String (a list of characters);
    the JS helpers includes / split / replace(first occurrence) are
    implemented below over List Char.
  * The Obsidian vault is a flat model: a path-to-content association list
    for files plus a list of folder paths and an optional active file.
    Obsidian normalizePath is modelled as the identity (no claim depends on
    path normalization).  File paths and folder paths are assumed disjoint.
  * Asynchronous effects are modelled by explicit oracles: the completion
    exchange (credential refresh + request assembly + HTTP call, the try block
    steps 2-4) is a function from iteration number and assembled messages to
    Except String Response, where an error value models a thrown exception
    with that message.  JSON.parse of tool arguments is an oracle
    String -> Option ArgRecord.  The AbortSignal is a schedule
    Nat -> Bool read at exactly the four observation points the source reads
    abortSignal?.aborted, with a logical clock counting observations.
  * The engine produces an event trace recording abort observations,
    transport invocations, tool dispatches, tool-call outcome callbacks
    (onToolCall), error callbacks (onError), and message appends.
-/

/-! ### JS string primitives over List Char -/

/-- Index of the leftmost occurrence of pat in s (JS String.indexOf), or none. -/
def idxOfSub? (pat : List Char) : List Char → Option Nat
  | [] => if pat.isPrefixOf [] then some 0 else none
  | c :: t =>
    if pat.isPrefixOf (c :: t) then some 0
    else (idxOfSub? pat t).map (· + 1)

/-- Fuel-indexed split on a non-overlapping leftmost-match separator
(JS String.split for a non-empty separator).  Fuel s.length suffices for a
non-empty separator. -/
def splitOnSubFuel (pat : List Char) : Nat → List Char → List (List Char)
  | 0, s => [s]
  | fuel + 1, s =>
    match idxOfSub? pat s with
    | none => [s]
    | some i => s.take i :: splitOnSubFuel pat fuel (s.drop (i + pat.length))

/-- JS String.split.  An empty separator splits into single characters. -/
def splitOnSub (pat s : List Char) : List (List Char) :=
  if pat.isEmpty then s.map (fun c => [c])
  else splitOnSubFuel pat s.length s

/-- Fuel-indexed greedy left-to-right count of non-overlapping occurrences of
pat in s; an independent character-by-character scan used as the
specification of the occurrence count reported by vault_edit_file. -/
def countOccFuel (pat : List Char) : Nat → List Char → Nat
  | 0, _ => 0
  | fuel + 1, s =>
    match s with
    | [] => 0
    | c :: t =>
      if pat.isPrefixOf (c :: t) then 1 + countOccFuel pat fuel ((c :: t).drop pat.length)
      else countOccFuel pat fuel t

/-- Number of non-overlapping occurrences of pat in s (0 for an empty pat). -/
def countOcc (pat s : List Char) : Nat :=
  if pat.isEmpty then 0 else countOccFuel pat s.length s

/-- Replace the leftmost occurrence of pat in s by rep
(JS String.replace with a plain-string pattern). -/
def replaceFirstSub (pat rep s : List Char) : List Char :=
  match idxOfSub? pat s with
  | none => s
  | some i => s.take i ++ rep ++ s.drop (i + pat.length)

/-- JS s.includes(pat). -/
def jsIncludes (s pat : String) : Bool :=
  (idxOfSub? pat.data s.data).isSome

/-- JS s.split(sep). -/
def jsSplit (s sep : String) : List String :=
  (splitOnSub sep.data s.data).map String.mk

/-- JS s.replace(pat, rep) for a plain-string pattern: first occurrence only. -/
def jsReplaceFirst (s pat rep : String) : String :=
  String.mk (replaceFirstSub pat.data rep.data s.data)

/-- Boolean lexicographic comparison of character lists, modelling the JS
default Array.sort() string comparison. -/
def charListLe : List Char → List Char → Bool
  | [], _ => true
  | _ :: _, [] => false
  | a :: s, b :: t =>
    if a < b then true
    else if b < a then false
    else charListLe s t

/-- JS string comparison used by Array.prototype.sort(). -/
def strLeB (a b : String) : Bool := charListLe a.data b.data

/-- Insertion into a list sorted by strLeB. -/
def insertStr (a : String) : List String → List String
  | [] => [a]
  | b :: t => if strLeB a b then a :: b :: t else b :: insertStr a t

/-- Insertion sort by strLeB, modelling JS Array.prototype.sort() on strings. -/
def sortStrings : List String → List String
  | [] => []
  | a :: t => insertStr a (sortStrings t)

/-- Concatenation of a list of strings in order. -/
def concatAll : List String → String
  | [] => ""
  | s :: t => s ++ concatAll t

/-! ### Association-list helpers -/

/-- First value bound to key k in an association list. -/
def assocFind? {κ α : Type} [DecidableEq κ] : List (κ × α) → κ → Option α
  | [], _ => none
  | e :: t, k => if e.1 = k then some e.2 else assocFind? t k

/-- Apply f to every value bound to key k (JS Map.set on an existing key /
mutation of the record fetched by Map.get). -/
def updAssoc {κ α : Type} [DecidableEq κ] (m : List (κ × α)) (k : κ) (f : α → α) :
    List (κ × α) :=
  m.map (fun e => if e.1 = k then (e.1, f e.2) else e)

/-- Remove every binding of key k. -/
def remAssoc {κ α : Type} [DecidableEq κ] (m : List (κ × α)) (k : κ) : List (κ × α) :=
  m.filter (fun e => e.1 ≠ k)

/-! ### Data model (src/types/index.ts) -/

/-- Message roles (type MessageRole). -/
inductive Role where
  | system
  | user
  | assistant
  | tool
deriving DecidableEq, Repr

/-- A fully materialized tool call (interface ToolCall).  The constant
discriminator field type: "function" is omitted; the nested function record is
flattened into name and arguments. -/
structure ToolCall where
  id : String
  name : String
  arguments : String
deriving DecidableEq, Repr

/-- An API chat message (interface ChatMessage).  content is string | null;
the optional tool_calls field is modelled as a list that is empty when the
field is absent (the source only ever tests presence together with
nonemptiness), and tool_call_id as an Option. -/
structure ChatMessage where
  role : Role
  content : Option String
  tool_calls : List ToolCall := []
  tool_call_id : Option String := none
deriving DecidableEq, Repr

/-- Status of a tool call result (type ToolCallStatus). -/
inductive ToolCallStatus where
  | pending
  | running
  | success
  | error
  | rejected
deriving DecidableEq, Repr

/-- Values of the parsed argument record.  The tool parameter schemas declare
only string, number and boolean arguments; other JSON shapes are outside the
model. -/
inductive ArgVal where
  | vstr (s : String)
  | vnum (n : Int)
  | vbool (b : Bool)
deriving DecidableEq, Repr

/-- A parsed argument record (Record<string, unknown> after JSON.parse). -/
def ArgRecord := List (String × ArgVal)
deriving DecidableEq, Repr

/-- Result of dispatching one tool call (interface ToolCallResult). -/
structure ToolCallResult where
  toolCallId : String
  toolName : String
  args : ArgRecord
  status : ToolCallStatus
  result : Option String := none
  error : Option String := none
deriving DecidableEq, Repr

/-- A unit of dialogue history (interface ConversationMessage).  toolCalls is
a list that is empty when absent; toolResults (presentation metadata) is not
used by the engine and is omitted.  Wall-clock timestamps are modelled as 0. -/
structure ConversationMessage where
  id : String
  role : Role
  content : String
  timestamp : Nat := 0
  toolCalls : List ToolCall := []
  toolCallId : Option String := none
deriving DecidableEq, Repr

/-- The materialized result of one completion exchange: the value returned by
sendChatCompletionStream. -/
structure Response where
  content : String
  toolCalls : List ToolCall
  finishReason : String
deriving DecidableEq, Repr

/-! ### Vault model and tools (src/mcp/tools.ts) -/

/-- Flat model of the Obsidian vault: files as a path-to-content association
list, folder paths, and the currently active file.  File and folder paths are
assumed disjoint; normalizePath is modelled as the identity. -/
structure Vault where
  files : List (String × String)
  folders : List String
  active : Option String := none
deriving DecidableEq, Repr

/-- JS truthiness of an argument-record field access (undefined, the empty
string, 0 and false are falsy; everything else is truthy). -/
def argTruthy : Option ArgVal → Bool
  | none => false
  | some (.vstr s) => s ≠ ""
  | some (.vnum n) => n ≠ 0
  | some (.vbool b) => b

/-- String view of an argument value as it appears in template literals. -/
def argToString : Option ArgVal → String
  | none => "undefined"
  | some (.vstr s) => s
  | some (.vnum n) => toString n
  | some (.vbool b) => if b then "true" else "false"

/-- Integer view of an argument value (non-numeric values are outside the
model and read as 0). -/
def argToInt : Option ArgVal → Int
  | some (.vnum n) => n
  | _ => 0

/-- Content of the file at path p, or none when no file exists there
(a folder at p is not a TFile, so it also yields none). -/
def Vault.fileContent? (v : Vault) (p : String) : Option String :=
  assocFind? v.files p

/-- Overwrite the content of the file at path p (vault.modify). -/
def Vault.setFile (v : Vault) (p c : String) : Vault :=
  { v with files := updAssoc v.files p (fun _ => c) }

/-- Create a file at path p with content c (vault.create). -/
def Vault.createFile (v : Vault) (p c : String) : Vault :=
  { v with files := v.files ++ [(p, c)] }

/-- Parent directory of a path, "" for a top-level path. -/
def parentDir (p : String) : String :=
  let parts := p.splitOn "/"
  if parts.length ≤ 1 then "" else String.intercalate "/" parts.dropLast

/-- Fixed-point formatting n/1024 with one decimal digit, modelling
(size / 1024).toFixed(1) with round-half-up. -/
def toFixed1KB (n : Nat) : String :=
  let tenths := (n * 10 + 512) / 1024
  toString (tenths / 10) ++ "." ++ toString (tenths % 10)

/-- vault_list_files (function listFiles).  Direct children are listed as
file entries with sizes and folder entries with a trailing slash; recursive
listing walks the whole subtree.  File size is modelled as content length. -/
def listFiles (v : Vault) (args : ArgRecord) : String × Vault :=
  let pathV := assocFind? args "path"
  let folderPath := if argTruthy pathV then argToString pathV else "/"
  let recursive := argTruthy (assocFind? args "recursive")
  let isRoot := folderPath = "/" ∨ folderPath = "" ∨ folderPath = "."
  if ¬ isRoot ∧ ¬ v.folders.contains folderPath then
    ("Error: Folder not found: " ++ folderPath, v)
  else
    let base := if isRoot then "" else folderPath
    let inScope : String → Bool := fun p =>
      if recursive then
        (if base = "" then true else (base ++ "/").isPrefixOf p)
      else parentDir p = base
    let fileEntries := (v.files.filter (fun e => inScope e.1)).map
      (fun e => e.1 ++ " (" ++ toFixed1KB e.2.length ++ " KB)")
    let folderEntries := (v.folders.filter (fun p => inScope p)).map (· ++ "/")
    let entries := sortStrings (fileEntries ++ folderEntries)
    if entries.isEmpty then ("No files found.", v)
    else (String.intercalate "\n" entries, v)

/-- vault_read_file (function readFile). -/
def readFile (v : Vault) (args : ArgRecord) : String × Vault :=
  let pathV := assocFind? args "path"
  if ¬ argTruthy pathV then ("Error: path is required", v)
  else
    let path := argToString pathV
    match v.fileContent? path with
    | none => ("Error: File not found: " ++ path, v)
    | some content => (content, v)

/-- vault_write_file (function writeFile).  Ensures the parent folder exists,
then overwrites an existing file or creates a new one. -/
def writeFile (v : Vault) (args : ArgRecord) : String × Vault :=
  let pathV := assocFind? args "path"
  let contentV := assocFind? args "content"
  if ¬ argTruthy pathV then ("Error: path is required", v)
  else if contentV.isNone then ("Error: content is required", v)
  else
    let path := argToString pathV
    let content := argToString contentV
    let parent := parentDir path
    let v :=
      if parent ≠ "" ∧ (v.fileContent? parent).isNone ∧ ¬ v.folders.contains parent then
        { v with folders := v.folders ++ [parent] }
      else v
    match v.fileContent? path with
    | some _ => ("File updated: " ++ path, v.setFile path content)
    | none => ("File created: " ++ path, v.createFile path content)

/-- vault_edit_file (function editFile).  Replaces the first occurrence of
oldText by newText; the reported count is computed from the split length, as
in the source. -/
def editFile (v : Vault) (args : ArgRecord) : String × Vault :=
  let pathV := assocFind? args "path"
  let oldV := assocFind? args "oldText"
  let newV := assocFind? args "newText"
  if ¬ argTruthy pathV then ("Error: path is required", v)
  else if ¬ argTruthy oldV then ("Error: oldText is required", v)
  else if newV.isNone then ("Error: newText is required", v)
  else
    let path := argToString pathV
    let oldText := argToString oldV
    let newText := argToString newV
    match v.fileContent? path with
    | none => ("Error: File not found: " ++ path, v)
    | some content =>
      if ¬ jsIncludes content oldText then
        ("Error: Could not find the specified text in " ++ path ++
          ". The oldText must match exactly.", v)
      else
        let occurrences := (jsSplit content oldText).length - 1
        let newContent := jsReplaceFirst content oldText newText
        ("File edited: " ++ path ++ " (" ++ toString occurrences ++
          " occurrence(s) found, first one replaced)", v.setFile path newContent)

/-- One search hit line for searchFiles. -/
def searchHitLine (path content : String) (idx qlen : Nat) : String :=
  let cs := content.data
  let start := idx - 50
  let stop := min cs.length (idx + qlen + 50)
  let excerpt := ((cs.drop start).take (stop - start)).map
    (fun c => if c = '\n' then ' ' else c)
  let lineNum := ((cs.take idx).filter (fun c => c = '\n')).length + 1
  path ++ " (line " ++ toString lineNum ++ "): ..." ++ String.mk excerpt ++ "..."

/-- Scan loop of searchFiles over the markdown files. -/
def searchLoop (query folderPath : String) (maxResults : Int) :
    List (String × String) → List String → List String
  | [], results => results
  | e :: rest, results =>
    if (results.length : Int) ≥ maxResults then results
    else if folderPath ≠ "" ∧ ¬ folderPath.isPrefixOf e.1 then
      searchLoop query folderPath maxResults rest results
    else
      match idxOfSub? query.data e.2.toLower.data with
      | none => searchLoop query folderPath maxResults rest results
      | some idx =>
        searchLoop query folderPath maxResults rest
          (results ++ [searchHitLine e.1 e.2 idx query.length])

/-- vault_search (function searchFiles).  Case-insensitive substring search
over markdown files; non-string query values are outside the model. -/
def searchFiles (v : Vault) (args : ArgRecord) : String × Vault :=
  let queryV := assocFind? args "query"
  if ¬ argTruthy queryV then ("Error: query is required", v)
  else
    let query := (argToString queryV).toLower
    let pathV := assocFind? args "path"
    let folderPath := if argTruthy pathV then argToString pathV else ""
    let mrV := assocFind? args "maxResults"
    let maxResults : Int := if argTruthy mrV then argToInt mrV else 20
    let mdFiles := v.files.filter (fun e => ".md".data.isSuffixOf e.1.data)
    let results := searchLoop query folderPath maxResults mdFiles []
    if results.isEmpty then
      ("No files found containing \"" ++ argToString queryV ++ "\".", v)
    else (String.intercalate "\n" results, v)

/-- vault_delete_file (function deleteFile).  Moves a file or folder to
trash; deleting a folder drops its descendants. -/
def deleteFile (v : Vault) (args : ArgRecord) : String × Vault :=
  let pathV := assocFind? args "path"
  if ¬ argTruthy pathV then ("Error: path is required", v)
  else
    let path := argToString pathV
    if (v.fileContent? path).isSome then
      ("File deleted (moved to trash): " ++ path,
        { v with files := remAssoc v.files path })
    else if v.folders.contains path then
      let folders := v.folders.filter (fun p => p ≠ path ∧ ¬ (path ++ "/").isPrefixOf p)
      let files := v.files.filter (fun e => ¬ (path ++ "/").isPrefixOf e.1)
      ("File deleted (moved to trash): " ++ path,
        { v with folders := folders, files := files })
    else ("Error: File not found: " ++ path, v)

/-- Rewrite a path p under a renamed ancestor. -/
def rerootPath (oldRoot newRoot p : String) : String :=
  if (oldRoot ++ "/").isPrefixOf p then
    newRoot ++ "/" ++ String.mk (p.data.drop (oldRoot.length + 1))
  else p

/-- vault_rename_file (function renameFile).  Renames a file, or a folder
together with its descendants. -/
def renameFile (v : Vault) (args : ArgRecord) : String × Vault :=
  let oldV := assocFind? args "oldPath"
  let newV := assocFind? args "newPath"
  if ¬ argTruthy oldV then ("Error: oldPath is required", v)
  else if ¬ argTruthy newV then ("Error: newPath is required", v)
  else
    let oldPath := argToString oldV
    let newPath := argToString newV
    if (v.fileContent? oldPath).isSome then
      let files := v.files.map (fun e => if e.1 = oldPath then (newPath, e.2) else e)
      ("File renamed: " ++ oldPath ++ " -> " ++ newPath, { v with files := files })
    else if v.folders.contains oldPath then
      let folders := v.folders.map
        (fun p => if p = oldPath then newPath else rerootPath oldPath newPath p)
      let files := v.files.map (fun e => (rerootPath oldPath newPath e.1, e.2))
      ("File renamed: " ++ oldPath ++ " -> " ++ newPath,
        { v with folders := folders, files := files })
    else ("Error: File not found: " ++ oldPath, v)

/-- vault_create_folder (function createFolder).  Any existing entry at the
path (file or folder) yields the already-exists message, as in the source. -/
def createFolder (v : Vault) (args : ArgRecord) : String × Vault :=
  let pathV := assocFind? args "path"
  if ¬ argTruthy pathV then ("Error: path is required", v)
  else
    let path := argToString pathV
    if (v.fileContent? path).isSome ∨ v.folders.contains path then
      ("Folder already exists: " ++ path, v)
    else ("Folder created: " ++ path, { v with folders := v.folders ++ [path] })

/-- vault_get_active_file (function getActiveFile).  The active path is
assumed to reference an existing file. -/
def getActiveFile (v : Vault) : String × Vault :=
  match v.active with
  | none => ("No file is currently active.", v)
  | some p =>
    ("Active file: " ++ p ++ "\n\n" ++ ((v.fileContent? p).getD ""), v)

/-- vault_append_to_file (function appendToFile).  Note the source requires a
truthy content, so appending an empty string is rejected. -/
def appendToFile (v : Vault) (args : ArgRecord) : String × Vault :=
  let pathV := assocFind? args "path"
  let contentV := assocFind? args "content"
  if ¬ argTruthy pathV then ("Error: path is required", v)
  else if ¬ argTruthy contentV then ("Error: content is required", v)
  else
    let path := argToString pathV
    let content := argToString contentV
    match v.fileContent? path with
    | none => ("Error: File not found: " ++ path, v)
    | some existing =>
      ("Content appended to: " ++ path, v.setFile path (existing ++ "\n" ++ content))

/-- vault_insert_at_line (function insertAtLine).  Inserts before the given
1-indexed line, clamped into range. -/
def insertAtLine (v : Vault) (args : ArgRecord) : String × Vault :=
  let pathV := assocFind? args "path"
  let lineV := assocFind? args "line"
  let contentV := assocFind? args "content"
  if ¬ argTruthy pathV then ("Error: path is required", v)
  else if ¬ argTruthy lineV then ("Error: line is required", v)
  else if ¬ argTruthy contentV then ("Error: content is required", v)
  else
    let path := argToString pathV
    let line := argToInt lineV
    let content := argToString contentV
    match v.fileContent? path with
    | none => ("Error: File not found: " ++ path, v)
    | some existing =>
      let lines := existing.splitOn "\n"
      let insertIdx := (max 0 (min (line - 1) (lines.length : Int))).toNat
      let lines := lines.take insertIdx ++ [content] ++ lines.drop insertIdx
      ("Content inserted at line " ++ toString line ++ " in: " ++ path,
        v.setFile path (String.intercalate "\n" lines))

/-- Tool dispatch (function executeVaultTool).  Only an unrecognized tool
name is a raised failure; the tool bodies report their own failures as
returned strings. -/
def executeVaultTool (v : Vault) (toolName : String) (args : ArgRecord) :
    Except String (String × Vault) :=
  if toolName = "vault_list_files" then .ok (listFiles v args)
  else if toolName = "vault_read_file" then .ok (readFile v args)
  else if toolName = "vault_write_file" then .ok (writeFile v args)
  else if toolName = "vault_edit_file" then .ok (editFile v args)
  else if toolName = "vault_search" then .ok (searchFiles v args)
  else if toolName = "vault_delete_file" then .ok (deleteFile v args)
  else if toolName = "vault_rename_file" then .ok (renameFile v args)
  else if toolName = "vault_create_folder" then .ok (createFolder v args)
  else if toolName = "vault_get_active_file" then .ok (getActiveFile v)
  else if toolName = "vault_append_to_file" then .ok (appendToFile v args)
  else if toolName = "vault_insert_at_line" then .ok (insertAtLine v args)
  else .error ("Unknown tool: " ++ toolName)

/-- The eleven declared tool names (getVaultToolDefinitions). -/
def vaultToolNames : List String :=
  ["vault_list_files", "vault_read_file", "vault_write_file", "vault_edit_file",
   "vault_search", "vault_delete_file", "vault_rename_file", "vault_create_folder",
   "vault_get_active_file", "vault_append_to_file", "vault_insert_at_line"]

/-! ### Tool-call fragment accumulation (sendChatCompletionStream, src/copilot/api.ts)

The SSE stream delivers tool-call deltas keyed by an index.  The source
accumulates them in a Map<number, {id, name, arguments}> and finalizes by
sorting the entries by key.  The Map is modelled as an association list in
insertion order. -/

/-- One tool-call delta as it appears in a parsed SSE chunk
(delta.tool_calls[k]): optional index, optional id, optional function name,
optional argument-text piece. -/
structure ToolCallFragment where
  index : Option Nat
  id : Option String := none
  name : Option String := none
  arguments : Option String := none
deriving DecidableEq, Repr

/-- JS truthiness of an optional string (undefined and "" are falsy). -/
def optTruthy : Option String → Bool
  | none => false
  | some s => s ≠ ""

/-- Accumulator record for one index. -/
structure ToolCallAcc where
  id : String
  name : String
  arguments : String
deriving DecidableEq, Repr

/-- Effective index of a fragment (tc.index ?? 0). -/
def fragIdx (tc : ToolCallFragment) : Nat := tc.index.getD 0

/-- Initial accumulator created on first sight of an index:
id: tc.id || "", name: tc.function?.name || "", arguments: "". -/
def initAcc (tc : ToolCallFragment) : ToolCallAcc :=
  { id := tc.id.getD "", name := tc.name.getD "", arguments := "" }

/-- Merge one fragment into an accumulator: id and name are overwritten only
when the fragment supplies a truthy (non-empty) value; argument text is
appended when supplied. -/
def mergeFrag (acc : ToolCallAcc) (tc : ToolCallFragment) : ToolCallAcc :=
  { id := if optTruthy tc.id then tc.id.getD "" else acc.id,
    name := if optTruthy tc.name then tc.name.getD "" else acc.name,
    arguments :=
      if optTruthy tc.arguments then acc.arguments ++ tc.arguments.getD ""
      else acc.arguments }

/-- Process one fragment against the accumulator map: create the entry on
first sight of the index, then apply the overwrite/append rules. -/
def accInsert (m : List (Nat × ToolCallAcc)) (tc : ToolCallFragment) :
    List (Nat × ToolCallAcc) :=
  let idx := fragIdx tc
  let m := if (assocFind? m idx).isSome then m else m ++ [(idx, initAcc tc)]
  updAssoc m idx (fun acc => mergeFrag acc tc)

/-- Accumulate a whole arrival sequence of fragments. -/
def accumulateFragments (fs : List ToolCallFragment) : List (Nat × ToolCallAcc) :=
  fs.foldl accInsert []

/-- Insertion into a list of keyed entries sorted by key. -/
def insertByKey {α : Type} (p : Nat × α) : List (Nat × α) → List (Nat × α)
  | [] => [p]
  | q :: t => if p.1 ≤ q.1 then p :: q :: t else q :: insertByKey p t

/-- Sort keyed entries ascending by key, modelling
[...map.entries()].sort(([a], [b]) => a - b). -/
def sortByKey {α : Type} : List (Nat × α) → List (Nat × α)
  | [] => []
  | p :: t => insertByKey p (sortByKey t)

/-- Materialize an accumulator as a ToolCall. -/
def accToToolCall (acc : ToolCallAcc) : ToolCall :=
  { id := acc.id, name := acc.name, arguments := acc.arguments }

/-- Finalization: one ToolCall per accumulated index, ordered by index
ascending. -/
def finalizeToolCalls (m : List (Nat × ToolCallAcc)) : List ToolCall :=
  (sortByKey m).map (fun e => accToToolCall e.2)

/-- The subsequence of fragments addressing index i, in arrival order. -/
def fragsAt (fs : List ToolCallFragment) (i : Nat) : List ToolCallFragment :=
  fs.filter (fun tc => fragIdx tc = i)

/-- Merge of a fragment subsequence into a fresh accumulator. -/
def mergeAll (gs : List ToolCallFragment) : ToolCallAcc :=
  gs.foldl mergeFrag { id := "", name := "", arguments := "" }

/-- Keys of an accumulator map, in entry order. -/
def keysOf (m : List (Nat × ToolCallAcc)) : List Nat := m.map (·.1)

/-! ### Message history assembly (buildApiMessages, src/copilot/engine.ts) -/

/-- The fixed built-in system instruction for vault tool use. -/
def defaultToolInstructions : String :=
  "You are a helpful AI assistant embedded in Obsidian, a note-taking application. You have access to vault tools that let you read, write, edit, search, and manage files in the user\x27s vault.

IMPORTANT RULES:
1. When the user asks you to create files, examples, or templates - you MUST use the vault tools (vault_write_file, vault_create_folder, etc.) to actually create them. Do NOT just describe what to do - actually do it by calling the tools.
2. Always read a file before editing it to understand its current content.
3. Use vault_edit_file for targeted edits and vault_write_file for creating new files or completely replacing content.
4. When a task requires creating multiple files, create ALL of them using tool calls. Do not stop after describing what you plan to do.
5. For complex tasks that require many files, create them one by one using multiple tool calls in sequence.
6. After creating/modifying files, confirm what you did with a summary.
7. The vault uses Markdown files (.md) with possible YAML frontmatter, wiki-links ([[link]]), and other Obsidian-specific syntax.
8. Obsidian .canvas files use JSON format. When creating canvas files, use proper JSON structure.
9. If you want to create an example or template, always use tool calls to create the actual files - never just show the content in chat."

/-- Translation of one history entry into an API message, mirroring the
loop body of buildApiMessages: user/assistant messages carry role and
content, with tool calls attached and a blank content turned into null when
tool calls are present; tool messages require a correlation id; anything
else is skipped. -/
def translateMsg (m : ConversationMessage) : Option ChatMessage :=
  if m.role = .user ∨ m.role = .assistant then
    if m.toolCalls ≠ [] then
      some { role := m.role,
             content := if m.content = "" then none else some m.content,
             tool_calls := m.toolCalls }
    else some { role := m.role, content := some m.content }
  else if m.role = .tool ∧ m.toolCallId.isSome then
    some { role := .tool, content := some m.content, tool_call_id := m.toolCallId }
  else none

/-- Push-style accumulation of one translated entry (msgs.push(apiMsg)). -/
def pushApi (acc : List ChatMessage) (m : ConversationMessage) : List ChatMessage :=
  match translateMsg m with
  | some am => acc ++ [am]
  | none => acc

/-- Assemble the request payload: optional custom system prompt, the built-in
tool-use instruction, the prior history, then the new messages of this run. -/
def buildApiMessages (systemPrompt : String) (history newMessages : List ConversationMessage) :
    List ChatMessage :=
  let msgs : List ChatMessage := []
  let msgs := if systemPrompt ≠ "" then
      msgs ++ [{ role := .system, content := some systemPrompt }] else msgs
  let msgs := msgs ++ [{ role := .system, content := some defaultToolInstructions }]
  let msgs := history.foldl pushApi msgs
  newMessages.foldl pushApi msgs

/-! ### The conversation engine (runChatEngine, src/copilot/engine.ts) -/

/-- Observable events of one engine run, in emission order. -/
inductive Event where
  | checkAbort (observed : Bool)
  | transportCall (iteration : Nat)
  | dispatch (name : String)
  | outcome (r : ToolCallResult)
  | errorCb (msg : String)
  | append (role : Role)
deriving DecidableEq, Repr

/-- External collaborators of one engine run, as oracles over the model
state type σ of the tool executor (σ = Vault for the real registry).
transport covers steps 2-4 of an iteration: credential refresh, request
assembly hand-off and the completion exchange; an error value models a
thrown exception carrying that message.  parseArgs models JSON.parse on the
argument payload.  aborted is the abort-signal schedule indexed by the
observation clock. -/
structure Env (σ : Type) where
  transport : Nat → List ChatMessage → Except String Response
  execTool : σ → String → ArgRecord → Except String (String × σ)
  parseArgs : String → Option ArgRecord
  aborted : Nat → Bool

/-- Mutable state of one engine run: the observation clock, the id counter,
the accumulated new messages, and the tool executor state. -/
structure EngineSt (σ : Type) where
  time : Nat
  nextId : Nat
  msgs : List ConversationMessage
  tool : σ

/-- Deterministic model of generateId(). -/
def idStr (n : Nat) : String := "msg-" ++ toString n

/-- Append one ConversationMessage (newMessages.push), producing an append
event. -/
def appendMsg {σ : Type} (st : EngineSt σ) (role : Role) (content : String)
    (toolCalls : List ToolCall) (toolCallId : Option String) :
    EngineSt σ × List Event :=
  let m : ConversationMessage :=
    { id := idStr st.nextId, role := role, content := content,
      toolCalls := toolCalls, toolCallId := toolCallId }
  ({ st with nextId := st.nextId + 1, msgs := st.msgs ++ [m] }, [Event.append role])

/-- The catch block of the engine loop: observe the abort signal; a failure
attributable to cancellation (signal set, or a message containing "abort" or
"AbortError") is swallowed silently; otherwise the error is reported via
onError and recorded as one assistant message Error: <description>. -/
def handleCatch {σ : Type} (env : Env σ) (e : String) (st : EngineSt σ) :
    EngineSt σ × List Event :=
  let b := env.aborted st.time
  let st := { st with time := st.time + 1 }
  if b ∨ jsIncludes e "abort" ∨ jsIncludes e "AbortError" then
    (st, [Event.checkAbort b])
  else
    let (st, evA) := appendMsg st .assistant ("Error: " ++ e) [] none
    (st, [Event.checkAbort b, Event.errorCb e] ++ evA)

/-- Per-round tool-call processing (the for-loop over streamResult.toolCalls):
check the abort signal before each dispatch, parse the argument payload
(an empty payload defaults to the empty JSON object), fold parse failures and
dispatch failures into tool messages, and thread the executor state. -/
def processToolCalls {σ : Type} (env : Env σ) :
    List ToolCall → EngineSt σ → EngineSt σ × List Event
  | [], st => (st, [])
  | tc :: rest, st =>
    let b := env.aborted st.time
    let st := { st with time := st.time + 1 }
    if b then (st, [Event.checkAbort true])
    else
      let argText := tc.arguments
      match env.parseArgs (if argText = "" then "\x7b\x7d" else argText) with
      | none =>
        let (st, evA) := appendMsg st .tool
          ("Error: Failed to parse arguments: " ++ argText) [] (some tc.id)
        let evO := [Event.outcome
          { toolCallId := tc.id, toolName := tc.name, args := [],
            status := .error, error := some "Failed to parse arguments" }]
        let (st, evR) := processToolCalls env rest st
        (st, [Event.checkAbort false] ++ evA ++ evO ++ evR)
      | some parsed =>
        let evRun := [Event.outcome
          { toolCallId := tc.id, toolName := tc.name, args := parsed,
            status := .running }]
        let evD := [Event.dispatch tc.name]
        match env.execTool st.tool tc.name parsed with
        | .ok (result, tool') =>
          let st := { st with tool := tool' }
          let evS := [Event.outcome
            { toolCallId := tc.id, toolName := tc.name, args := parsed,
              status := .success, result := some result }]
          let (st, evA) := appendMsg st .tool result [] (some tc.id)
          let (st, evR) := processToolCalls env rest st
          (st, [Event.checkAbort false] ++ evRun ++ evD ++ evS ++ evA ++ evR)
        | .error e =>
          let evE := [Event.outcome
            { toolCallId := tc.id, toolName := tc.name, args := parsed,
              status := .error, error := some e }]
          let (st, evA) := appendMsg st .tool ("Error: " ++ e) [] (some tc.id)
          let (st, evR) := processToolCalls env rest st
          (st, [Event.checkAbort false] ++ evRun ++ evD ++ evE ++ evA ++ evR)

/-- The iteration loop of runChatEngine.  fuel is the number of remaining
iterations (maxIterations - iteration).  Each iteration: abort check at the
top; the abort check at the entry of sendChatCompletionStream (which throws
"Request aborted" without issuing the HTTP call); the completion exchange;
the assistant message for the round; tool-call processing; and the
finish-reason continuation decision. -/
def engineLoop {σ : Type} (env : Env σ) (systemPrompt : String)
    (history : List ConversationMessage) :
    Nat → Nat → EngineSt σ → EngineSt σ × List Event
  | 0, _, st => (st, [])
  | fuel + 1, iteration, st =>
    let b := env.aborted st.time
    let st := { st with time := st.time + 1 }
    if b then (st, [Event.checkAbort true])
    else
      let b2 := env.aborted st.time
      let st := { st with time := st.time + 1 }
      if b2 then
        let (st, evC) := handleCatch env "Request aborted" st
        (st, [Event.checkAbort false, Event.checkAbort true] ++ evC)
      else
        let apiMessages := buildApiMessages systemPrompt history st.msgs
        match env.transport iteration apiMessages with
        | .error e =>
          let (st, evC) := handleCatch env e st
          (st, [Event.checkAbort false, Event.checkAbort false,
                Event.transportCall iteration] ++ evC)
        | .ok r =>
          let (st, evA) := appendMsg st .assistant r.content r.toolCalls none
          let evPre := [Event.checkAbort false, Event.checkAbort false,
                        Event.transportCall iteration] ++ evA
          if r.toolCalls.isEmpty then (st, evPre)
          else
            let (st, evT) := processToolCalls env r.toolCalls st
            if r.finishReason ≠ "tool_calls" ∧ r.finishReason ≠ "function_call" then
              (st, evPre ++ evT)
            else
              let (st, evL) := engineLoop env systemPrompt history fuel (iteration + 1) st
              (st, evPre ++ evT ++ evL)

/-- The engine entry point (runChatEngine): push the user message, run up to
maxIterations iterations, and return the new messages of this run together
with the event trace. -/
def runChatEngine {σ : Type} (env : Env σ) (tool₀ : σ) (systemPrompt : String)
    (maxIterations : Nat) (history : List ConversationMessage)
    (userMessage : String) : List ConversationMessage × List Event :=
  let st : EngineSt σ := { time := 0, nextId := 0, msgs := [], tool := tool₀ }
  let (st, evU) := appendMsg st .user userMessage [] none
  let (st, evL) := engineLoop env systemPrompt history maxIterations 0 st
  (st.msgs, evU ++ evL)

/-! ### Event classifiers -/

/-- True exactly for abort-signal observations. -/
def isCheck : Event → Bool
  | .checkAbort _ => true
  | _ => false

/-- True exactly for completion-transport invocations. -/
def isTransportCall : Event → Bool
  | .transportCall _ => true
  | _ => false

/-- True exactly for onError callbacks. -/
def isErrorCb : Event → Bool
  | .errorCb _ => true
  | _ => false

/-- True exactly for message appends. -/
def isAppend : Event → Bool
  | .append _ => true
  | _ => false

/-- The dispatched tool name, for dispatch events. -/
def dispatchName? : Event → Option String
  | .dispatch n => some n
  | _ => none

/-- The status carried by an outcome event. -/
def outcomeStatus? : Event → Option ToolCallStatus
  | .outcome r => some r.status
  | _ => none

/-- A trace segment consisting solely of abort observations. -/
def allChecks (d : List Event) : Prop := ∀ e ∈ d, isCheck e = true

/-- A trace segment in which cancellation is never observed. -/
def noTrueCheck (d : List Event) : Prop := Event.checkAbort true ∉ d

/-- Shape of a run trace under a monotone abort signal: a segment before
cancellation is observed, followed by nothing but further abort
observations. -/
def QuietShape (d : List Event) : Prop :=
  ∃ a b, d = a ++ b ∧ noTrueCheck a ∧ allChecks b

/-- Compositional specification of one engine step under the abort schedule
ab: the observation clock only advances; a step entered after cancellation
became observable emits only abort observations; a step that observed
cancellation leaves the signal observable; and the emitted segment has
QuietShape. -/
def StepOK (ab : Nat → Bool) (t t' : Nat) (d : List Event) : Prop :=
  t ≤ t' ∧ (ab t = true → allChecks d) ∧
    (¬ noTrueCheck d → ab t' = true) ∧ QuietShape d

/-! ### Concrete scenario environments -/

/-- A small vault used by the concrete scenarios. -/
def demoVault : Vault :=
  { files := [("a.md", "hello world")], folders := [], active := none }

/-- The argument record for a vault_edit_file call whose oldText does not
occur in a.md. -/
def demoEditArgs : ArgRecord :=
  [("path", ArgVal.vstr "a.md"), ("oldText", ArgVal.vstr "xyz"),
   ("newText", ArgVal.vstr "new")]

/-- The descriptive error string editFile returns for a non-matching oldText
in a.md. -/
def demoEditErr : String :=
  "Error: Could not find the specified text in a.md. The oldText must match exactly."

/-- Scenario environment: round 0 requests one vault_edit_file call whose
oldText does not match, with finish reason tool_calls; round 1 answers with
plain content and finish reason stop.  No cancellation. -/
def demoEnvEdit : Env Vault :=
  { transport := fun i _ =>
      if i = 0 then
        .ok { content := "", toolCalls := [{ id := "call1", name := "vault_edit_file",
                                             arguments := "EDITARGS" }],
              finishReason := "tool_calls" }
      else .ok { content := "done", toolCalls := [], finishReason := "stop" },
    execTool := executeVaultTool,
    parseArgs := fun s => if s = "EDITARGS" then some demoEditArgs else none,
    aborted := fun _ => false }

/-- The run of the non-matching-oldText scenario. -/
def demoRunEdit : List ConversationMessage × List Event :=
  runChatEngine demoEnvEdit demoVault "" 5 [] "edit the file"

/-- Scenario environment for cancellation: the abort signal fires at the
third observation, i.e. after the round-1 assistant message is appended and
before the first tool dispatch. -/
def demoEnvAbort : Env Unit :=
  { transport := fun _ _ =>
      .ok { content := "", toolCalls := [{ id := "c1", name := "vault_list_files",
                                           arguments := "" }],
            finishReason := "tool_calls" },
    execTool := fun s _ _ => .ok ("ok", s),
    parseArgs := fun _ => some [],
    aborted := fun n => decide (2 ≤ n) }

/-- The run of the cancellation scenario. -/
def demoRunAbort : List ConversationMessage × List Event :=
  runChatEngine demoEnvAbort () "" 5 [] "list files"

/-- Environment where the model keeps requesting tools forever, every
response carrying finish reason tool_calls and one tool call. -/
def demoEnvLoop : Env Unit :=
  { transport := fun _ _ =>
      .ok { content := "", toolCalls := [{ id := "c", name := "vault_read_file",
                                           arguments := "A" }],
            finishReason := "tool_calls" },
    execTool := fun s _ _ => .ok ("ok", s),
    parseArgs := fun _ => some [],
    aborted := fun _ => false }

/-- Environment where round 0 carries two tool calls but finish reason stop. -/
def demoEnvStop : Env Unit :=
  { transport := fun _ _ =>
      .ok { content := "also done",
            toolCalls := [{ id := "c1", name := "vault_read_file", arguments := "A" },
                          { id := "c2", name := "vault_list_files", arguments := "B" }],
            finishReason := "stop" },
    execTool := fun s _ _ => .ok ("ok", s),
    parseArgs := fun _ => some [],
    aborted := fun _ => false }

/-- Environment whose argument parser rejects the payload used by the
malformed-arguments scenario. -/
def demoEnvBadJson : Env Unit :=
  { transport := fun _ _ =>
      .ok { content := "", toolCalls := [{ id := "c1", name := "vault_read_file",
                                           arguments := "\x7bbad json" }],
            finishReason := "stop" },
    execTool := fun s _ _ => .ok ("ok", s),
    parseArgs := fun s => if s = "\x7bbad json" then none else some [],
    aborted := fun _ => false }

/-- Environment whose completion exchange fails with a non-cancellation
error. -/
def demoEnvFail : Env Unit :=
  { transport := fun _ _ => .error "Copilot API error (500): upstream",
    execTool := fun s _ _ => .ok ("ok", s),
    parseArgs := fun _ => some [],
    aborted := fun _ => false }

/-- A vault whose file n.md contains two occurrences of the text abc. -/
def demoVaultMulti : Vault :=
  { files := [("n.md", "abc-mid-abc-end")], folders := [], active := none }

/-- Fragment list with fragments of two indices interleaved, index 1 arriving
before index 0. -/
def demoFrags : List ToolCallFragment :=
  [{ index := some 1, id := some "idB", name := some "vault_search", arguments := some "ab" },
   { index := some 0, id := some "idA", name := some "vault_read_file", arguments := some "x" },
   { index := some 1, id := some "", name := none, arguments := some "cd" },
   { index := some 0, id := none, name := none, arguments := some "yz" }]


/-! ### Lemmas about the string primitives -/

theorem idxOfSub?_isPrefix {pat : List Char} :
    ∀ {s : List Char} {i : Nat}, idxOfSub? pat s = some i →
      pat.isPrefixOf (s.drop i) = true := by
  intro s
  induction s with
  | nil =>
    intro i h
    cases hb : pat.isPrefixOf ([] : List Char) with
    | true => simp only [idxOfSub?, hb, if_true] at h; cases h; simpa using hb
    | false => simp [idxOfSub?, hb] at h
  | cons c t ih =>
    intro i h
    cases hb : pat.isPrefixOf (c :: t) with
    | true => simp only [idxOfSub?, hb, if_true] at h; cases h; simpa using hb
    | false =>
      simp only [idxOfSub?, hb, Bool.false_eq_true, if_false] at h
      rcases Option.map_eq_some'.mp h with ⟨j, hj, rfl⟩
      simpa using ih hj

theorem idxOfSub?_min {pat : List Char} :
    ∀ {s : List Char} {i : Nat}, idxOfSub? pat s = some i →
      ∀ j, j < i → pat.isPrefixOf (s.drop j) = false := by
  intro s
  induction s with
  | nil =>
    intro i h j hj
    cases hb : pat.isPrefixOf ([] : List Char) with
    | true => simp only [idxOfSub?, hb, if_true] at h; cases h; omega
    | false => simp [idxOfSub?, hb] at h
  | cons c t ih =>
    intro i h j hj
    cases hb : pat.isPrefixOf (c :: t) with
    | true => simp only [idxOfSub?, hb, if_true] at h; cases h; omega
    | false =>
      simp only [idxOfSub?, hb, Bool.false_eq_true, if_false] at h
      rcases Option.map_eq_some'.mp h with ⟨k, hk, rfl⟩
      cases j with
      | zero => simpa using hb
      | succ j' => simpa using ih hk j' (by omega)

theorem idxOfSub?_none {pat : List Char} :
    ∀ {s : List Char}, idxOfSub? pat s = none →
      ∀ j, pat.isPrefixOf (s.drop j) = false := by
  intro s
  induction s with
  | nil =>
    intro h j
    cases hb : pat.isPrefixOf ([] : List Char) with
    | true => simp [idxOfSub?, hb] at h
    | false => simpa using hb
  | cons c t ih =>
    intro h j
    cases hb : pat.isPrefixOf (c :: t) with
    | true => simp [idxOfSub?, hb] at h
    | false =>
      simp only [idxOfSub?, hb, Bool.false_eq_true, if_false,
        Option.map_eq_none'] at h
      cases j with
      | zero => simpa using hb
      | succ j' => simpa using ih h j'

theorem isPrefixOf_length_le {pat s : List Char} (h : pat.isPrefixOf s = true) :
    pat.length ≤ s.length :=
  ((List.isPrefixOf_iff_prefix).mp h).length_le

theorem idxOfSub?_le_length {pat : List Char} :
    ∀ {s : List Char} {i : Nat}, idxOfSub? pat s = some i → i ≤ s.length := by
  intro s
  induction s with
  | nil =>
    intro i h
    cases hb : pat.isPrefixOf ([] : List Char) with
    | true => simp only [idxOfSub?, hb, if_true] at h; cases h; simp
    | false => simp [idxOfSub?, hb] at h
  | cons c t ih =>
    intro i h
    cases hb : pat.isPrefixOf (c :: t) with
    | true => simp only [idxOfSub?, hb, if_true] at h; cases h; simp
    | false =>
      simp only [idxOfSub?, hb, Bool.false_eq_true, if_false] at h
      rcases Option.map_eq_some'.mp h with ⟨j, hj, rfl⟩
      have := ih hj
      simp only [List.length_cons]
      omega

theorem idxOfSub?_add_length_le {pat s : List Char} {i : Nat}
    (h : idxOfSub? pat s = some i) : i + pat.length ≤ s.length := by
  have h1 := idxOfSub?_isPrefix h
  have h2 := isPrefixOf_length_le h1
  have h3 := idxOfSub?_le_length h
  simp only [List.length_drop] at h2
  omega

theorem idxOfSub?_decompose {pat s : List Char} {i : Nat}
    (h : idxOfSub? pat s = some i) :
    s = s.take i ++ pat ++ s.drop (i + pat.length) := by
  obtain ⟨r, hr⟩ := (List.isPrefixOf_iff_prefix).mp (idxOfSub?_isPrefix h)
  have hr' : r = s.drop (i + pat.length) := by
    have h1 : (pat ++ r).drop pat.length = r := by simp
    rw [hr, List.drop_drop] at h1
    exact h1.symm
  calc s = s.take i ++ s.drop i := (List.take_append_drop i s).symm
    _ = s.take i ++ (pat ++ r) := by rw [hr]
    _ = s.take i ++ pat ++ s.drop (i + pat.length) := by
        rw [hr', List.append_assoc]

theorem countOccFuel_mono {pat : List Char} (hp : pat ≠ []) :
    ∀ (f₁ : Nat) (f₂ : Nat) (s : List Char), s.length ≤ f₁ → f₁ ≤ f₂ →
      countOccFuel pat f₁ s = countOccFuel pat f₂ s := by
  intro f₁
  induction f₁ with
  | zero =>
    intro f₂ s hs _
    have : s = [] := List.length_eq_zero.mp (Nat.le_zero.mp hs)
    subst this
    cases f₂ with
    | zero => rfl
    | succ k => simp [countOccFuel]
  | succ n ih =>
    intro f₂ s hs hle
    cases f₂ with
    | zero => omega
    | succ m =>
      cases s with
      | nil => simp [countOccFuel]
      | cons c t =>
        have hpatlen : 1 ≤ pat.length := by
          cases pat with
          | nil => exact absurd rfl hp
          | cons a b => simp
        simp only [countOccFuel]
        cases hb : pat.isPrefixOf (c :: t) with
        | true =>
          simp only [if_true]
          have hlen : ((c :: t).drop pat.length).length ≤ n := by
            simp only [List.length_drop, List.length_cons]
            simp only [List.length_cons] at hs
            omega
          rw [ih m _ hlen (by omega)]
        | false =>
          simp only [Bool.false_eq_true, if_false]
          have hlen : t.length ≤ n := by
            simp only [List.length_cons] at hs
            omega
          rw [ih m t hlen (by omega)]

theorem countOcc_nil (pat : List Char) : countOcc pat [] = 0 := by
  unfold countOcc
  split
  · rfl
  · rfl

theorem countOcc_head {pat : List Char} (hp : pat ≠ []) {c : Char} {t : List Char}
    (h : pat.isPrefixOf (c :: t) = true) :
    countOcc pat (c :: t) = 1 + countOcc pat ((c :: t).drop pat.length) := by
  have hpatlen : 1 ≤ pat.length := by
    cases pat with
    | nil => exact absurd rfl hp
    | cons a b => simp
  have hne : pat.isEmpty = false := by
    cases pat with
    | nil => exact absurd rfl hp
    | cons a b => rfl
  unfold countOcc
  simp only [hne, Bool.false_eq_true, if_false]
  simp only [List.length_cons, countOccFuel, h, if_true]
  congr 1
  have hdlen : ((c :: t).drop pat.length).length ≤ t.length := by
    simp only [List.length_drop, List.length_cons]
    omega
  exact (countOccFuel_mono hp _ t.length _ (Nat.le_refl _) hdlen).symm

theorem countOcc_tail {pat : List Char} (hp : pat ≠ []) {c : Char} {t : List Char}
    (h : pat.isPrefixOf (c :: t) = false) :
    countOcc pat (c :: t) = countOcc pat t := by
  have hne : pat.isEmpty = false := by
    cases pat with
    | nil => exact absurd rfl hp
    | cons a b => rfl
  unfold countOcc
  simp only [hne, Bool.false_eq_true, if_false]
  simp only [List.length_cons, countOccFuel, h, Bool.false_eq_true, if_false]

theorem countOcc_of_idx_none {pat : List Char} (hp : pat ≠ []) :
    ∀ {s : List Char}, idxOfSub? pat s = none → countOcc pat s = 0 := by
  intro s
  induction s with
  | nil => intro _; exact countOcc_nil pat
  | cons c t ih =>
    intro h
    cases hb : pat.isPrefixOf (c :: t) with
    | true => simp [idxOfSub?, hb] at h
    | false =>
      simp only [idxOfSub?, hb, Bool.false_eq_true, if_false,
        Option.map_eq_none'] at h
      rw [countOcc_tail hp hb, ih h]

theorem countOcc_of_idx_some {pat : List Char} (hp : pat ≠ []) :
    ∀ {s : List Char} {i : Nat}, idxOfSub? pat s = some i →
      countOcc pat s = 1 + countOcc pat (s.drop (i + pat.length)) := by
  intro s
  induction s with
  | nil =>
    intro i h
    have hb : pat.isPrefixOf ([] : List Char) = false := by
      cases pat with
      | nil => exact absurd rfl hp
      | cons a b => rfl
    simp [idxOfSub?, hb] at h
  | cons c t ih =>
    intro i h
    cases hb : pat.isPrefixOf (c :: t) with
    | true =>
      simp only [idxOfSub?, hb, if_true] at h
      cases h
      rw [countOcc_head hp hb]
      simp
    | false =>
      simp only [idxOfSub?, hb, Bool.false_eq_true, if_false] at h
      rcases Option.map_eq_some'.mp h with ⟨j, hj, rfl⟩
      rw [countOcc_tail hp hb, ih hj]
      have harith : j + 1 + pat.length = (j + pat.length) + 1 := by omega
      rw [harith, List.drop_succ_cons]

theorem splitOnSubFuel_mono {pat : List Char} (hp : pat ≠ []) :
    ∀ (f₁ : Nat) (f₂ : Nat) (s : List Char), s.length ≤ f₁ → f₁ ≤ f₂ →
      splitOnSubFuel pat f₁ s = splitOnSubFuel pat f₂ s := by
  intro f₁
  induction f₁ with
  | zero =>
    intro f₂ s hs _
    have hsnil : s = [] := List.length_eq_zero.mp (Nat.le_zero.mp hs)
    subst hsnil
    have hb : pat.isPrefixOf ([] : List Char) = false := by
      cases pat with
      | nil => exact absurd rfl hp
      | cons a b => rfl
    cases f₂ with
    | zero => rfl
    | succ k => simp [splitOnSubFuel, idxOfSub?, hb]
  | succ n ih =>
    intro f₂ s hs hle
    cases f₂ with
    | zero => omega
    | succ m =>
      simp only [splitOnSubFuel]
      cases hidx : idxOfSub? pat s with
      | none => rfl
      | some i =>
        have hpatlen : 1 ≤ pat.length := by
          cases pat with
          | nil => exact absurd rfl hp
          | cons a b => simp
        have hbound := idxOfSub?_add_length_le hidx
        have hlen : (s.drop (i + pat.length)).length ≤ n := by
          simp only [List.length_drop]
          omega
        simp only []
        rw [ih m _ hlen (by omega)]

theorem splitOnSub_none {pat s : List Char} (hp : pat ≠ [])
    (h : idxOfSub? pat s = none) : splitOnSub pat s = [s] := by
  have hne : pat.isEmpty = false := by
    cases pat with
    | nil => exact absurd rfl hp
    | cons a b => rfl
  unfold splitOnSub
  simp only [hne, Bool.false_eq_true, if_false]
  cases s with
  | nil => rfl
  | cons c t => simp [splitOnSubFuel, h]

theorem splitOnSub_some {pat s : List Char} {i : Nat} (hp : pat ≠ [])
    (h : idxOfSub? pat s = some i) :
    splitOnSub pat s = s.take i :: splitOnSub pat (s.drop (i + pat.length)) := by
  have hne : pat.isEmpty = false := by
    cases pat with
    | nil => exact absurd rfl hp
    | cons a b => rfl
  have hpatlen : 1 ≤ pat.length := by
    cases pat with
    | nil => exact absurd rfl hp
    | cons a b => simp
  have hbound := idxOfSub?_add_length_le h
  have hpos : 1 ≤ s.length := by omega
  unfold splitOnSub
  simp only [hne, Bool.false_eq_true, if_false]
  obtain ⟨k, hk⟩ : ∃ k, s.length = k + 1 := ⟨s.length - 1, by omega⟩
  rw [hk]
  simp only [splitOnSubFuel, h]
  congr 1
  have hdlen : (s.drop (i + pat.length)).length ≤ k := by
    simp only [List.length_drop]
    omega
  exact (splitOnSubFuel_mono hp _ k _ (Nat.le_refl _) hdlen).symm

theorem splitOnSub_length {pat : List Char} (hp : pat ≠ []) :
    ∀ (n : Nat) (s : List Char), s.length ≤ n →
      (splitOnSub pat s).length = countOcc pat s + 1 := by
  intro n
  induction n with
  | zero =>
    intro s hs
    have hsnil : s = [] := List.length_eq_zero.mp (Nat.le_zero.mp hs)
    subst hsnil
    have hb : pat.isPrefixOf ([] : List Char) = false := by
      cases pat with
      | nil => exact absurd rfl hp
      | cons a b => rfl
    rw [splitOnSub_none hp (by simp [idxOfSub?, hb]), countOcc_nil]
    rfl
  | succ n ih =>
    intro s hs
    cases hidx : idxOfSub? pat s with
    | none =>
      have hc : countOcc pat s = 0 := countOcc_of_idx_none hp hidx
      rw [splitOnSub_none hp hidx, hc]
      rfl
    | some i =>
      have hpatlen : 1 ≤ pat.length := by
        cases pat with
        | nil => exact absurd rfl hp
        | cons a b => simp
      have hbound := idxOfSub?_add_length_le hidx
      have hdlen : (s.drop (i + pat.length)).length ≤ n := by
        simp only [List.length_drop]
        omega
      have hc : countOcc pat s = 1 + countOcc pat (s.drop (i + pat.length)) :=
        countOcc_of_idx_some hp hidx
      rw [splitOnSub_some hp hidx, hc]
      simp only [List.length_cons, ih _ hdlen]
      omega

theorem countOcc_pos_iff {pat s : List Char} (hp : pat ≠ []) :
    1 ≤ countOcc pat s ↔ (idxOfSub? pat s).isSome = true := by
  cases hidx : idxOfSub? pat s with
  | none => simp [countOcc_of_idx_none hp hidx]
  | some i => simp [countOcc_of_idx_some hp hidx]

theorem assocFind?_updAssoc {κ α : Type} [DecidableEq κ]
    (m : List (κ × α)) (k j : κ) (f : α → α) :
    assocFind? (updAssoc m k f) j =
      if j = k then (assocFind? m j).map f else assocFind? m j := by
  induction m with
  | nil => simp [updAssoc, assocFind?]
  | cons e t ih =>
    obtain ⟨a, b⟩ := e
    by_cases he : a = k
    · subst he
      by_cases hj : a = j
      · subst hj
        simp [updAssoc, assocFind?]
      · have hjk : ¬ j = a := fun hc => hj hc.symm
        have ih' := ih
        simp only [updAssoc] at ih'
        simp [updAssoc, assocFind?, hj, hjk, ih']
    · by_cases hj : a = j
      · subst hj
        have hak : ¬ a = k := he
        simp [updAssoc, assocFind?, hak]
      · have ih' := ih
        simp only [updAssoc] at ih'
        simp [updAssoc, assocFind?, he, hj, ih']

theorem data_ne_nil_of_ne_empty {s : String} (h : s ≠ "") : s.data ≠ [] := by
  intro hd
  exact h (String.ext hd)

theorem jsSplit_count {s sep : String} (h : sep.data ≠ []) :
    (jsSplit s sep).length - 1 = countOcc sep.data s.data := by
  unfold jsSplit
  rw [List.length_map, splitOnSub_length h s.data.length s.data (Nat.le_refl _)]
  omega

theorem executeVaultTool_edit (v : Vault) (args : ArgRecord) :
    executeVaultTool v "vault_edit_file" args = .ok (editFile v args) := by rfl

theorem editFile_found (v : Vault) (p old rep c : String)
    (hp : p ≠ "") (hold : old ≠ "") (hfile : assocFind? v.files p = some c)
    (hinc : jsIncludes c old = true) :
    editFile v [("path", ArgVal.vstr p), ("oldText", ArgVal.vstr old),
                ("newText", ArgVal.vstr rep)] =
      ("File edited: " ++ p ++ " (" ++ toString ((jsSplit c old).length - 1) ++
        " occurrence(s) found, first one replaced)",
       v.setFile p (jsReplaceFirst c old rep)) := by
  unfold editFile
  simp [assocFind?, argTruthy, argToString, Vault.fileContent?, hp, hold, hfile, hinc]

/-- C10: when vault_edit_file succeeds and oldText occurs more than once in
the target file, exactly the first (leftmost) occurrence of oldText is
replaced by newText — the new content is the prefix before the least
occurrence index, then newText, then the untouched remainder containing every
later occurrence — and the returned message reports the total number of
non-overlapping occurrences found. -/
theorem claim_C10 (v : Vault) (p c old rep : String)
    (hfile : assocFind? v.files p = some c)
    (hp : p ≠ "") (hold : old ≠ "")
    (hcount : 2 ≤ countOcc old.data c.data) :
    ∃ i : Nat,
      old.data.isPrefixOf (c.data.drop i) = true ∧
      (∀ j, j < i → old.data.isPrefixOf (c.data.drop j) = false) ∧
      executeVaultTool v "vault_edit_file"
          [("path", ArgVal.vstr p), ("oldText", ArgVal.vstr old),
           ("newText", ArgVal.vstr rep)] =
        Except.ok
          ("File edited: " ++ p ++ " (" ++ toString (countOcc old.data c.data) ++
             " occurrence(s) found, first one replaced)",
           v.setFile p
             (String.mk (c.data.take i ++ rep.data ++ c.data.drop (i + old.data.length)))) := by
  have holdD := data_ne_nil_of_ne_empty hold
  have hsome : (idxOfSub? old.data c.data).isSome = true :=
    (countOcc_pos_iff holdD).mp (by omega)
  obtain ⟨i, hidx⟩ := Option.isSome_iff_exists.mp hsome
  refine ⟨i, idxOfSub?_isPrefix hidx, idxOfSub?_min hidx, ?_⟩
  have hinc : jsIncludes c old = true := by
    unfold jsIncludes
    rw [hidx]
    rfl
  rw [executeVaultTool_edit, editFile_found v p old rep c hp hold hfile hinc]
  have hrep : jsReplaceFirst c old rep =
      String.mk (c.data.take i ++ rep.data ++ c.data.drop (i + old.data.length)) := by
    unfold jsReplaceFirst replaceFirstSub
    rw [hidx]
  have hcnt : (jsSplit c old).length - 1 = countOcc old.data c.data :=
    jsSplit_count holdD
  rw [hrep, hcnt]

theorem executeVaultTool_read (v : Vault) (args : ArgRecord) :
    executeVaultTool v "vault_read_file" args = .ok (readFile v args) := by rfl

/-- Counterexample to C7 as stated: the dispatch does not raise for a missing
required argument or a missing target resource — vault_read_file with no
path, and with a path that names no file, both return ordinary (ok) results
whose text is a descriptive error string. -/
theorem claim_C7_counterexample :
    executeVaultTool demoVault "vault_read_file" [] =
      Except.ok ("Error: path is required", demoVault) ∧
    executeVaultTool demoVault "vault_read_file" [("path", ArgVal.vstr "nope.md")] =
      Except.ok ("Error: File not found: nope.md", demoVault) :=
  ⟨rfl, rfl⟩

/-- C7 (amended): executeVaultTool fails by raising only when the operation
name is unrecognized; a missing required argument and a missing target
resource are reported as descriptive Error strings inside an ordinary
non-raising result. -/
theorem claim_C7 (v : Vault) (name : String) (args : ArgRecord) :
    (name ∉ vaultToolNames →
      executeVaultTool v name args = Except.error ("Unknown tool: " ++ name)) ∧
    (argTruthy (assocFind? args "path") = false →
      executeVaultTool v "vault_read_file" args =
        Except.ok ("Error: path is required", v)) ∧
    (∀ p : String, assocFind? args "path" = some (ArgVal.vstr p) → p ≠ "" →
      assocFind? v.files p = none →
      executeVaultTool v "vault_read_file" args =
        Except.ok ("Error: File not found: " ++ p, v)) := by
  refine ⟨?_, ?_, ?_⟩
  · intro hname
    simp only [vaultToolNames, List.mem_cons, List.not_mem_nil, or_false,
      not_or] at hname
    obtain ⟨h1, h2, h3, h4, h5, h6, h7, h8, h9, h10, h11⟩ := hname
    simp [executeVaultTool, h1, h2, h3, h4, h5, h6, h7, h8, h9, h10, h11]
  · intro hfalse
    rw [executeVaultTool_read]
    unfold readFile
    simp [hfalse]
  · intro p hfind hp hnone
    rw [executeVaultTool_read]
    unfold readFile
    simp [hfind, argTruthy, argToString, hp, Vault.fileContent?, hnone]

/-- Witness for the amended C7 at concrete inputs. -/
theorem claim_C7_witness :
    executeVaultTool demoVault "vault_frobnicate" [] =
      Except.error ("Unknown tool: " ++ "vault_frobnicate") ∧
    executeVaultTool demoVault "vault_read_file" [("path", ArgVal.vstr "")] =
      Except.ok ("Error: path is required", demoVault) ∧
    executeVaultTool demoVault "vault_read_file" [("path", ArgVal.vstr "ghost.md")] =
      Except.ok ("Error: File not found: " ++ "ghost.md", demoVault) :=
  ⟨(claim_C7 demoVault "vault_frobnicate" []).1 (by decide),
   (claim_C7 demoVault "vault_read_file" [("path", ArgVal.vstr "")]).2.1 (by decide),
   (claim_C7 demoVault "vault_read_file" [("path", ArgVal.vstr "ghost.md")]).2.2
     "ghost.md" (by decide) (by decide) (by decide)⟩

/-- Witness for C10: n.md contains abc twice; the edit replaces the first
occurrence. -/
theorem claim_C10_witness :
    ∃ i : Nat,
      "abc".data.isPrefixOf ("abc-mid-abc-end".data.drop i) = true ∧
      (∀ j, j < i → "abc".data.isPrefixOf ("abc-mid-abc-end".data.drop j) = false) ∧
      executeVaultTool demoVaultMulti "vault_edit_file"
          [("path", ArgVal.vstr "n.md"), ("oldText", ArgVal.vstr "abc"),
           ("newText", ArgVal.vstr "X")] =
        Except.ok
          ("File edited: " ++ "n.md" ++ " (" ++
             toString (countOcc "abc".data "abc-mid-abc-end".data) ++
             " occurrence(s) found, first one replaced)",
           demoVaultMulti.setFile "n.md"
             (String.mk ("abc-mid-abc-end".data.take i ++ "X".data ++
               "abc-mid-abc-end".data.drop (i + "abc".data.length)))) :=
  claim_C10 demoVaultMulti "n.md" "abc-mid-abc-end" "abc" "X"
    (by decide) (by decide) (by decide) (by decide)

/-- C5: a tool call whose argument payload fails to parse yields a tool-role
message whose content carries the literal failing argument text, publishes an
error-status outcome, performs no dispatch for that call (the events of the
call are exactly the abort check, the message append and the error outcome),
and processing continues with the remaining tool calls; the engine functions
are total, so no exception escapes the run. -/
theorem claim_C5 {σ : Type} (env : Env σ) (st : EngineSt σ) (tc : ToolCall)
    (rest : List ToolCall)
    (hab : env.aborted st.time = false)
    (hparse : env.parseArgs
      (if tc.arguments = "" then "\x7b\x7d" else tc.arguments) = none) :
    ∃ stEnd dRest,
      processToolCalls env (tc :: rest) st =
        (stEnd,
         [Event.checkAbort false, Event.append .tool,
          Event.outcome { toolCallId := tc.id, toolName := tc.name, args := [],
                          status := .error,
                          error := some "Failed to parse arguments" }] ++ dRest) ∧
      (stEnd, dRest) = processToolCalls env rest
        { st with time := st.time + 1, nextId := st.nextId + 1,
                  msgs := st.msgs ++
                    [{ id := idStr st.nextId, role := .tool,
                       content := "Error: Failed to parse arguments: " ++ tc.arguments,
                       toolCallId := some tc.id }] } := by
  refine ⟨(processToolCalls env rest _).1, (processToolCalls env rest _).2, ?_, rfl⟩
  simp only [processToolCalls, hab, Bool.false_eq_true, if_false, hparse, appendMsg]
  rfl

/-- Witness for C5 at the concrete malformed payload of the scenario. -/
theorem claim_C5_witness :
    ∃ stEnd dRest,
      processToolCalls demoEnvBadJson
          [{ id := "c1", name := "vault_read_file", arguments := "\x7bbad json" }]
          { time := 0, nextId := 0, msgs := [], tool := () } =
        (stEnd,
         [Event.checkAbort false, Event.append .tool,
          Event.outcome { toolCallId := "c1", toolName := "vault_read_file",
                          args := [], status := .error,
                          error := some "Failed to parse arguments" }] ++ dRest) ∧
      (stEnd, dRest) = processToolCalls demoEnvBadJson []
        { time := 0 + 1, nextId := 0 + 1,
          msgs := [] ++
            [{ id := idStr 0, role := .tool,
               content := "Error: Failed to parse arguments: " ++ "\x7bbad json",
               toolCallId := some "c1" }],
          tool := () } :=
  claim_C5 demoEnvBadJson { time := 0, nextId := 0, msgs := [], tool := () }
    { id := "c1", name := "vault_read_file", arguments := "\x7bbad json" } []
    (by decide) (by decide)

theorem editFile_noMatch (v : Vault) (p old rep c : String)
    (hp : p ≠ "") (hold : old ≠ "") (hfile : assocFind? v.files p = some c)
    (hninc : jsIncludes c old = false) :
    editFile v [("path", ArgVal.vstr p), ("oldText", ArgVal.vstr old),
                ("newText", ArgVal.vstr rep)] =
      ("Error: Could not find the specified text in " ++ p ++
        ". The oldText must match exactly.", v) := by
  unfold editFile
  simp [assocFind?, argTruthy, argToString, Vault.fileContent?, hp, hold, hfile,
    hninc]

/-- Counterexample to C8 as stated: in the non-matching-oldText scenario the
published outcome for the call has status success (carrying the error string
as its result), and no outcome of the run has status error. -/
theorem claim_C8_counterexample :
    Event.outcome { toolCallId := "call1", toolName := "vault_edit_file",
                    args := demoEditArgs, status := .success,
                    result := some demoEditErr } ∈ demoRunEdit.2 ∧
    (∀ e ∈ demoRunEdit.2, outcomeStatus? e ≠ some ToolCallStatus.error) :=
  ⟨by decide, by decide⟩

/-- C8 (amended): dispatching vault_edit_file with a non-matching oldText
records a tool message whose content equals the Error: <description> string,
but the published ToolCallOutcome for the call has status success carrying
that string as its result (the registry reports the failure as an ordinary
result string rather than raising), no error-status outcome is published for
it, and the run continues: in the concrete scenario the engine starts a
second request/response round rather than aborting. -/
theorem claim_C8 (env : Env Vault) (st : EngineSt Vault) (tc : ToolCall)
    (rest : List ToolCall) (p old rep c : String)
    (hexec : env.execTool = executeVaultTool)
    (hab : env.aborted st.time = false)
    (hname : tc.name = "vault_edit_file")
    (hparse : env.parseArgs (if tc.arguments = "" then "\x7b\x7d" else tc.arguments) =
      some [("path", ArgVal.vstr p), ("oldText", ArgVal.vstr old),
            ("newText", ArgVal.vstr rep)])
    (hp : p ≠ "") (hold : old ≠ "")
    (hfile : assocFind? st.tool.files p = some c)
    (hninc : jsIncludes c old = false) :
    (∃ stEnd dRest,
      processToolCalls env (tc :: rest) st =
        (stEnd,
         [Event.checkAbort false,
          Event.outcome { toolCallId := tc.id, toolName := tc.name,
                          args := [("path", ArgVal.vstr p), ("oldText", ArgVal.vstr old),
                                   ("newText", ArgVal.vstr rep)],
                          status := .running },
          Event.dispatch tc.name,
          Event.outcome { toolCallId := tc.id, toolName := tc.name,
                          args := [("path", ArgVal.vstr p), ("oldText", ArgVal.vstr old),
                                   ("newText", ArgVal.vstr rep)],
                          status := .success,
                          result := some ("Error: Could not find the specified text in " ++
                            p ++ ". The oldText must match exactly.") },
          Event.append .tool] ++ dRest) ∧
      (stEnd, dRest) = processToolCalls env rest
        { st with time := st.time + 1, nextId := st.nextId + 1,
                  msgs := st.msgs ++
                    [{ id := idStr st.nextId, role := .tool,
                       content := "Error: Could not find the specified text in " ++
                         p ++ ". The oldText must match exactly.",
                       toolCallId := some tc.id }] }) ∧
    (demoRunEdit.2.filter isTransportCall).length = 2 := by
  constructor
  · obtain ⟨cid, nm, ar⟩ := tc
    simp only [] at hname hparse
    subst hname
    refine ⟨(processToolCalls env rest _).1, (processToolCalls env rest _).2, ?_, rfl⟩
    simp only [processToolCalls, hab, Bool.false_eq_true, if_false, hparse, hexec,
      executeVaultTool_edit, editFile_noMatch st.tool p old rep c hp hold hfile hninc,
      appendMsg]
    rfl
  · decide

/-- Witness for the amended C8 at the concrete scenario inputs. -/
theorem claim_C8_witness :
    (∃ stEnd dRest,
      processToolCalls demoEnvEdit
          [{ id := "call1", name := "vault_edit_file", arguments := "EDITARGS" }]
          { time := 0, nextId := 0, msgs := [], tool := demoVault } =
        (stEnd,
         [Event.checkAbort false,
          Event.outcome { toolCallId := "call1", toolName := "vault_edit_file",
                          args := [("path", ArgVal.vstr "a.md"),
                                   ("oldText", ArgVal.vstr "xyz"),
                                   ("newText", ArgVal.vstr "new")],
                          status := .running },
          Event.dispatch "vault_edit_file",
          Event.outcome { toolCallId := "call1", toolName := "vault_edit_file",
                          args := [("path", ArgVal.vstr "a.md"),
                                   ("oldText", ArgVal.vstr "xyz"),
                                   ("newText", ArgVal.vstr "new")],
                          status := .success,
                          result := some ("Error: Could not find the specified text in " ++
                            "a.md" ++ ". The oldText must match exactly.") },
          Event.append .tool] ++ dRest) ∧
      (stEnd, dRest) = processToolCalls demoEnvEdit []
        { time := 0 + 1, nextId := 0 + 1,
          msgs := [] ++
            [{ id := idStr 0, role := .tool,
               content := "Error: Could not find the specified text in " ++
                 "a.md" ++ ". The oldText must match exactly.",
               toolCallId := some "call1" }],
          tool := demoVault }) ∧
    (demoRunEdit.2.filter isTransportCall).length = 2 :=
  claim_C8 demoEnvEdit { time := 0, nextId := 0, msgs := [], tool := demoVault }
    { id := "call1", name := "vault_edit_file", arguments := "EDITARGS" } []
    "a.md" "xyz" "new" "hello world"
    rfl (by decide) rfl (by decide) (by decide) (by decide) (by decide) (by decide)

theorem foldl_pushApi (l : List ConversationMessage) :
    ∀ acc : List ChatMessage,
      l.foldl pushApi acc = acc ++ l.filterMap translateMsg := by
  induction l with
  | nil => intro acc; simp
  | cons m t ih =>
    intro acc
    simp only [List.foldl_cons, List.filterMap_cons]
    cases hm : translateMsg m with
    | none => rw [ih, pushApi, hm]
    | some am => rw [ih, pushApi, hm]; simp

/-- C9: the assembled request sequence begins with the operator-supplied
custom system instruction when it is non-empty, followed immediately by the
fixed built-in tool-use instruction, and both precede every translated
history entry and every new-message entry; with an empty custom instruction
the built-in instruction comes first. -/
theorem claim_C9 (systemPrompt : String)
    (history newMessages : List ConversationMessage) :
    (systemPrompt ≠ "" →
      buildApiMessages systemPrompt history newMessages =
        { role := .system, content := some systemPrompt } ::
        { role := .system, content := some defaultToolInstructions } ::
        (history.filterMap translateMsg ++ newMessages.filterMap translateMsg)) ∧
    (systemPrompt = "" →
      buildApiMessages systemPrompt history newMessages =
        { role := .system, content := some defaultToolInstructions } ::
        (history.filterMap translateMsg ++ newMessages.filterMap translateMsg)) := by
  constructor
  · intro h
    unfold buildApiMessages
    simp [h, foldl_pushApi]
  · intro h
    unfold buildApiMessages
    simp [h, foldl_pushApi]

/-- Witness for C9 on a concrete history exercising all translation rules. -/
theorem claim_C9_witness :
    buildApiMessages "Be brief"
      [{ id := "h1", role := .user, content := "hi" },
       { id := "h2", role := .assistant, content := "",
         toolCalls := [{ id := "cid", name := "vault_read_file",
                         arguments := "\x7b\x7d" }] },
       { id := "h3", role := .tool, content := "result", toolCallId := some "cid" }]
      [{ id := "m0", role := .user, content := "u" }] =
      [{ role := .system, content := some "Be brief" },
       { role := .system, content := some defaultToolInstructions },
       { role := .user, content := some "hi" },
       { role := .assistant, content := none,
         tool_calls := [{ id := "cid", name := "vault_read_file",
                          arguments := "\x7b\x7d" }] },
       { role := .tool, content := some "result", tool_call_id := some "cid" },
       { role := .user, content := some "u" }] :=
  (claim_C9 "Be brief"
      [{ id := "h1", role := .user, content := "hi" },
       { id := "h2", role := .assistant, content := "",
         toolCalls := [{ id := "cid", name := "vault_read_file",
                         arguments := "\x7b\x7d" }] },
       { id := "h3", role := .tool, content := "result", toolCallId := some "cid" }]
      [{ id := "m0", role := .user, content := "u" }]).1 (by decide)

/-! ### Lemmas about tool-call fragment accumulation -/

theorem getD_empty_of_not_truthy {o : Option String} (h : optTruthy o = false) :
    o.getD "" = "" := by
  cases o with
  | none => rfl
  | some s =>
    simp only [optTruthy, decide_eq_false_iff_not, not_not] at h
    simp [h]

theorem mergeFrag_initAcc (tc : ToolCallFragment) :
    mergeFrag (initAcc tc) tc = mergeFrag { id := "", name := "", arguments := "" } tc := by
  unfold mergeFrag initAcc
  cases hid : optTruthy tc.id <;> cases hnm : optTruthy tc.name <;>
    cases har : optTruthy tc.arguments <;>
    simp [getD_empty_of_not_truthy, hid, hnm, har]

theorem assocFind?_append_some {κ α : Type} [DecidableEq κ]
    {m₁ : List (κ × α)} (m₂ : List (κ × α)) {k : κ} {v : α}
    (h : assocFind? m₁ k = some v) : assocFind? (m₁ ++ m₂) k = some v := by
  induction m₁ with
  | nil => simp [assocFind?] at h
  | cons e t ih =>
    simp only [assocFind?, List.cons_append] at h ⊢
    by_cases he : e.1 = k
    · simpa [he] using h
    · simp only [he, if_false] at h ⊢
      exact ih h

theorem assocFind?_append_none {κ α : Type} [DecidableEq κ]
    {m₁ : List (κ × α)} (m₂ : List (κ × α)) {k : κ}
    (h : assocFind? m₁ k = none) : assocFind? (m₁ ++ m₂) k = assocFind? m₂ k := by
  induction m₁ with
  | nil => simp
  | cons e t ih =>
    simp only [assocFind?, List.cons_append] at h ⊢
    by_cases he : e.1 = k
    · simp [he] at h
    · simp only [he, if_false] at h ⊢
      exact ih h

theorem accum_lookup_aux :
    ∀ (fs : List ToolCallFragment) (m : List (Nat × ToolCallAcc)) (i : Nat),
      (∀ a, assocFind? m i = some a →
        assocFind? (fs.foldl accInsert m) i = some ((fragsAt fs i).foldl mergeFrag a)) ∧
      (assocFind? m i = none →
        assocFind? (fs.foldl accInsert m) i =
          if fragsAt fs i = [] then none
          else some (mergeAll (fragsAt fs i))) := by
  intro fs
  induction fs with
  | nil =>
    intro m i
    constructor
    · intro a ha
      simpa [fragsAt] using ha
    · intro h
      simpa [fragsAt] using h
  | cons tc fs ih =>
    intro m i
    by_cases hfi : fragIdx tc = i
    · -- the head fragment addresses index i
      have hfilter : fragsAt (tc :: fs) i = tc :: fragsAt fs i := by
        simp [fragsAt, hfi]
      constructor
      · intro a ha
        have hins : assocFind? (accInsert m tc) i = some (mergeFrag a tc) := by
          unfold accInsert
          rw [hfi]
          have : (assocFind? m i).isSome = true := by rw [ha]; rfl
          simp only [this, if_true]
          rw [assocFind?_updAssoc, if_pos rfl, ha]
          rfl
        have := (ih (accInsert m tc) i).1 (mergeFrag a tc) hins
        simpa [hfilter] using this
      · intro hnone
        have hins : assocFind? (accInsert m tc) i =
            some (mergeFrag { id := "", name := "", arguments := "" } tc) := by
          unfold accInsert
          rw [hfi]
          have : (assocFind? m i).isSome = false := by rw [hnone]; rfl
          simp only [this, Bool.false_eq_true, if_false]
          rw [assocFind?_updAssoc, if_pos rfl,
            assocFind?_append_none _ hnone]
          simp [assocFind?, mergeFrag_initAcc]
        have := (ih (accInsert m tc) i).1 _ hins
        rw [hfilter, if_neg (List.cons_ne_nil _ _)]
        simpa [mergeAll] using this
    · -- the head fragment addresses a different index
      have hfilter : fragsAt (tc :: fs) i = fragsAt fs i := by
        simp [fragsAt, hfi]
      have hfi' : ¬ i = fragIdx tc := fun hc => hfi hc.symm
      have hkeep : assocFind? (accInsert m tc) i = assocFind? m i := by
        unfold accInsert
        cases hm : (assocFind? m (fragIdx tc)).isSome with
        | true =>
          simp only [hm, if_true]
          rw [assocFind?_updAssoc, if_neg hfi']
        | false =>
          simp only [hm, Bool.false_eq_true, if_false]
          rw [assocFind?_updAssoc, if_neg hfi']
          cases hmi : assocFind? m i with
          | none =>
            rw [assocFind?_append_none _ hmi]
            simp [assocFind?, hfi]
          | some a => rw [assocFind?_append_some _ hmi]
      constructor
      · intro a ha
        have := (ih (accInsert m tc) i).1 a (hkeep.trans ha)
        simpa [hfilter] using this
      · intro hnone
        have := (ih (accInsert m tc) i).2 (hkeep.trans hnone)
        simpa [hfilter] using this

theorem foldl_mergeFrag_arguments :
    ∀ (gs : List ToolCallFragment) (acc : ToolCallAcc),
      (gs.foldl mergeFrag acc).arguments =
        acc.arguments ++ concatAll (gs.map (fun tc => tc.arguments.getD "")) := by
  intro gs
  induction gs with
  | nil => intro acc; simp [concatAll]
  | cons tc gs ih =>
    intro acc
    rw [List.foldl_cons, ih, List.map_cons]
    have hcc : concatAll (tc.arguments.getD "" ::
        gs.map (fun tc => tc.arguments.getD "")) =
        tc.arguments.getD "" ++ concatAll (gs.map (fun tc => tc.arguments.getD "")) := rfl
    rw [hcc]
    cases har : optTruthy tc.arguments with
    | true =>
      simp only [mergeFrag, har, if_true]
      rw [String.append_assoc]
    | false =>
      simp only [mergeFrag, har, Bool.false_eq_true, if_false]
      rw [getD_empty_of_not_truthy har]
      simp

theorem optTruthy_some {o : Option String} (h : optTruthy o = true) :
    ∃ s, o = some s ∧ s ≠ "" := by
  cases o with
  | none => simp [optTruthy] at h
  | some s => exact ⟨s, rfl, by simpa [optTruthy] using h⟩

theorem foldl_mergeFrag_id :
    ∀ (gs : List ToolCallFragment) (acc : ToolCallAcc),
      (gs.foldl mergeFrag acc).id =
        (gs.filterMap (fun tc => if optTruthy tc.id then tc.id else none)).getLastD
          acc.id := by
  intro gs
  induction gs with
  | nil => intro acc; simp
  | cons tc gs ih =>
    intro acc
    rw [List.foldl_cons, ih]
    cases hid : optTruthy tc.id with
    | true =>
      obtain ⟨s, hs, hne⟩ := optTruthy_some hid
      have hf : (fun tc => if optTruthy tc.id then tc.id else none) tc = some s := by
        simp only []
        rw [hs]
        simp [optTruthy, hne]
      rw [@List.filterMap_cons_some ToolCallFragment String
        (fun tc => if optTruthy tc.id then tc.id else none) tc gs s hf,
        List.getLastD_cons]
      congr 1
      simp [mergeFrag, hs, optTruthy, hne]
    | false =>
      have hf : (fun tc => if optTruthy tc.id then tc.id else none) tc = none := by
        simp [hid]
      rw [@List.filterMap_cons_none ToolCallFragment String
        (fun tc => if optTruthy tc.id then tc.id else none) tc gs hf]
      congr 1
      simp [mergeFrag, hid]

theorem foldl_mergeFrag_name :
    ∀ (gs : List ToolCallFragment) (acc : ToolCallAcc),
      (gs.foldl mergeFrag acc).name =
        (gs.filterMap (fun tc => if optTruthy tc.name then tc.name else none)).getLastD
          acc.name := by
  intro gs
  induction gs with
  | nil => intro acc; simp
  | cons tc gs ih =>
    intro acc
    rw [List.foldl_cons, ih]
    cases hnm : optTruthy tc.name with
    | true =>
      obtain ⟨s, hs, hne⟩ := optTruthy_some hnm
      have hf : (fun tc => if optTruthy tc.name then tc.name else none) tc = some s := by
        simp only []
        rw [hs]
        simp [optTruthy, hne]
      rw [@List.filterMap_cons_some ToolCallFragment String
        (fun tc => if optTruthy tc.name then tc.name else none) tc gs s hf,
        List.getLastD_cons]
      congr 1
      simp [mergeFrag, hs, optTruthy, hne]
    | false =>
      have hf : (fun tc => if optTruthy tc.name then tc.name else none) tc = none := by
        simp [hnm]
      rw [@List.filterMap_cons_none ToolCallFragment String
        (fun tc => if optTruthy tc.name then tc.name else none) tc gs hf]
      congr 1
      simp [mergeFrag, hnm]

theorem keysOf_updAssoc (m : List (Nat × ToolCallAcc)) (k : Nat)
    (f : ToolCallAcc → ToolCallAcc) : keysOf (updAssoc m k f) = keysOf m := by
  unfold keysOf updAssoc
  rw [List.map_map]
  apply List.map_congr_left
  intro e _
  by_cases he : e.1 = k <;> simp [he]

theorem assocFind?_eq_none_iff {κ α : Type} [DecidableEq κ]
    (m : List (κ × α)) (k : κ) :
    assocFind? m k = none ↔ k ∉ m.map (fun e => e.1) := by
  induction m with
  | nil => simp [assocFind?]
  | cons e t ih =>
    simp only [assocFind?, List.map_cons, List.mem_cons]
    by_cases he : e.1 = k
    · simp [he]
    · simp only [he, if_false, ih]
      constructor
      · intro h hc
        rcases hc with hc | hc
        · exact he hc.symm
        · exact h hc
      · intro h
        exact fun hc => h (Or.inr hc)

theorem keysOf_accInsert (m : List (Nat × ToolCallAcc)) (tc : ToolCallFragment) :
    keysOf (accInsert m tc) =
      if (assocFind? m (fragIdx tc)).isSome then keysOf m
      else keysOf m ++ [fragIdx tc] := by
  unfold accInsert
  cases hm : (assocFind? m (fragIdx tc)).isSome with
  | true => simp only [hm, if_true, keysOf_updAssoc]
  | false =>
    simp only [hm, Bool.false_eq_true, if_false, keysOf_updAssoc]
    unfold keysOf
    simp

theorem accum_keys_nodup :
    ∀ (fs : List ToolCallFragment) (m : List (Nat × ToolCallAcc)),
      (keysOf m).Nodup → (keysOf (fs.foldl accInsert m)).Nodup := by
  intro fs
  induction fs with
  | nil => intro m h; exact h
  | cons tc fs ih =>
    intro m h
    rw [List.foldl_cons]
    apply ih
    rw [keysOf_accInsert]
    cases hm : (assocFind? m (fragIdx tc)).isSome with
    | true => simpa using h
    | false =>
      simp only [Bool.false_eq_true, if_false]
      have hnot : fragIdx tc ∉ keysOf m := by
        have := (assocFind?_eq_none_iff m (fragIdx tc)).mp
          (by cases hfind : assocFind? m (fragIdx tc) with
              | none => rfl
              | some a => rw [hfind] at hm; cases hm)
        exact this
      have hperm : List.Perm (keysOf m ++ [fragIdx tc]) (fragIdx tc :: keysOf m) :=
        List.perm_append_singleton _ _
      rw [hperm.nodup_iff]
      exact List.Nodup.cons hnot h

theorem assocFind?_of_mem_nodup {κ α : Type} [DecidableEq κ] :
    ∀ (m : List (κ × α)), (m.map (fun e => e.1)).Nodup →
      ∀ e ∈ m, assocFind? m e.1 = some e.2 := by
  intro m
  induction m with
  | nil => intro _ e he; cases he
  | cons hd t ih =>
    intro hnd e he
    simp only [List.map_cons, List.nodup_cons] at hnd
    rcases List.mem_cons.mp he with he' | he'
    · subst he'
      simp [assocFind?]
    · have hne : ¬ hd.1 = e.1 := by
        intro hc
        exact hnd.1 (hc ▸ List.mem_map_of_mem (fun e => e.1) he')
      simp only [assocFind?, hne, if_false]
      exact ih hnd.2 e he'

theorem insertByKey_perm {α : Type} (p : Nat × α) :
    ∀ l : List (Nat × α), List.Perm (insertByKey p l) (p :: l) := by
  intro l
  induction l with
  | nil => rfl
  | cons q t ih =>
    unfold insertByKey
    by_cases h : p.1 ≤ q.1
    · simp [h]
    · simp only [h, if_false]
      exact (ih.cons q).trans (List.Perm.swap p q t)

theorem sortByKey_perm {α : Type} :
    ∀ m : List (Nat × α), List.Perm (sortByKey m) m := by
  intro m
  induction m with
  | nil => rfl
  | cons p t ih =>
    unfold sortByKey
    exact (insertByKey_perm p (sortByKey t)).trans (ih.cons p)

theorem insertByKey_pairwise {α : Type} (p : Nat × α) :
    ∀ l : List (Nat × α),
      l.Pairwise (fun a b => a.1 ≤ b.1) →
      (insertByKey p l).Pairwise (fun a b => a.1 ≤ b.1) := by
  intro l
  induction l with
  | nil => intro _; simp [insertByKey]
  | cons q t ih =>
    intro hp
    rcases List.pairwise_cons.mp hp with ⟨hq, ht⟩
    unfold insertByKey
    by_cases h : p.1 ≤ q.1
    · simp only [h, if_true]
      refine List.Pairwise.cons ?_ hp
      intro x hx
      rcases List.mem_cons.mp hx with hx | hx
      · exact hx ▸ h
      · exact Nat.le_trans h (hq x hx)
    · simp only [h, if_false]
      refine List.Pairwise.cons ?_ (ih ht)
      intro x hx
      have hx' := (insertByKey_perm p t).mem_iff.mp hx
      rcases List.mem_cons.mp hx' with hx' | hx'
      · exact hx' ▸ Nat.le_of_not_le h
      · exact hq x hx'

theorem sortByKey_pairwise {α : Type} :
    ∀ m : List (Nat × α), (sortByKey m).Pairwise (fun a b => a.1 ≤ b.1) := by
  intro m
  induction m with
  | nil => simp [sortByKey]
  | cons p t ih =>
    unfold sortByKey
    exact insertByKey_pairwise p (sortByKey t) ih

/-- C1: fragments sharing an index are merged into one accumulator — the
entry for index i is the left fold of exactly the fragments addressing i in
arrival order, whose argument text is the concatenation of the supplied
argument pieces in arrival order and whose id and name hold the last
non-empty supplied value — and finalization emits exactly one ToolCallRequest
per distinct index, ordered by index strictly ascending; the final list
therefore does not depend on the arrival order of fragments across different
indices. -/
theorem claim_C1 (fs : List ToolCallFragment) :
    (∀ i, assocFind? (accumulateFragments fs) i =
      if fragsAt fs i = [] then none else some (mergeAll (fragsAt fs i))) ∧
    (∀ gs : List ToolCallFragment,
      (mergeAll gs).arguments =
        concatAll (gs.map (fun tc => tc.arguments.getD ""))) ∧
    (∀ gs : List ToolCallFragment,
      (mergeAll gs).id =
        (gs.filterMap (fun tc => if optTruthy tc.id then tc.id else none)).getLastD
          "" ∧
      (mergeAll gs).name =
        (gs.filterMap (fun tc => if optTruthy tc.name then tc.name else none)).getLastD
          "") ∧
    (∃ ks : List Nat,
      finalizeToolCalls (accumulateFragments fs) =
        ks.map (fun i => accToToolCall (mergeAll (fragsAt fs i))) ∧
      ks.Pairwise (· < ·) ∧
      (∀ i, i ∈ ks ↔ fragsAt fs i ≠ [])) := by
  have hlookup : ∀ i, assocFind? (accumulateFragments fs) i =
      if fragsAt fs i = [] then none else some (mergeAll (fragsAt fs i)) :=
    fun i => (accum_lookup_aux fs [] i).2 rfl
  have hnodupM : (keysOf (accumulateFragments fs)).Nodup :=
    accum_keys_nodup fs [] (by simp [keysOf])
  refine ⟨hlookup, ?_, ?_, ?_⟩
  · intro gs
    have := foldl_mergeFrag_arguments gs { id := "", name := "", arguments := "" }
    simpa [mergeAll] using this
  · intro gs
    constructor
    · have := foldl_mergeFrag_id gs { id := "", name := "", arguments := "" }
      simpa [mergeAll] using this
    · have := foldl_mergeFrag_name gs { id := "", name := "", arguments := "" }
      simpa [mergeAll] using this
  · refine ⟨keysOf (sortByKey (accumulateFragments fs)), ?_, ?_, ?_⟩
    · unfold finalizeToolCalls keysOf
      rw [List.map_map]
      apply List.map_congr_left
      intro e he
      have heM : e ∈ accumulateFragments fs :=
        (sortByKey_perm (accumulateFragments fs)).mem_iff.mp he
      have hfind : assocFind? (accumulateFragments fs) e.1 = some e.2 :=
        assocFind?_of_mem_nodup (accumulateFragments fs) hnodupM e heM
      rw [hlookup e.1] at hfind
      by_cases hemp : fragsAt fs e.1 = []
      · rw [if_pos hemp] at hfind; cases hfind
      · rw [if_neg hemp] at hfind
        have : e.2 = mergeAll (fragsAt fs e.1) := by
          injection hfind with h
          exact h.symm
        simp [this]
    · have hle := sortByKey_pairwise (accumulateFragments fs)
      have hks_le : (keysOf (sortByKey (accumulateFragments fs))).Pairwise
          (fun a b => a ≤ b) := by
        unfold keysOf
        exact hle.map _ (fun a b h => h)
      have hks_nd : (keysOf (sortByKey (accumulateFragments fs))).Nodup := by
        have hpm : List.Perm (keysOf (sortByKey (accumulateFragments fs)))
            (keysOf (accumulateFragments fs)) :=
          (sortByKey_perm (accumulateFragments fs)).map _
        exact hpm.nodup_iff.mpr hnodupM
      exact List.Pairwise.imp₂ (fun a b h1 h2 => Nat.lt_of_le_of_ne h1 h2)
        hks_le hks_nd
    · intro i
      have hpm : List.Perm (keysOf (sortByKey (accumulateFragments fs)))
          (keysOf (accumulateFragments fs)) :=
        (sortByKey_perm (accumulateFragments fs)).map _
      rw [hpm.mem_iff]
      constructor
      · intro hmem hemp
        have : assocFind? (accumulateFragments fs) i = none := by
          rw [hlookup i, if_pos hemp]
        exact ((assocFind?_eq_none_iff _ i).mp this) hmem
      · intro hemp
        by_contra hmem
        have : assocFind? (accumulateFragments fs) i = none :=
          (assocFind?_eq_none_iff _ i).mpr hmem
        rw [hlookup i] at this
        rw [if_neg hemp] at this
        cases this

/-! ### Lemmas about the engine loop -/

theorem processToolCalls_events {σ : Type} (env : Env σ) :
    ∀ (tcs : List ToolCall) (st : EngineSt σ) (e : Event),
      e ∈ (processToolCalls env tcs st).2 →
      isTransportCall e = false ∧ isErrorCb e = false := by
  intro tcs
  induction tcs with
  | nil =>
    intro st e he
    simp [processToolCalls] at he
  | cons tc rest ih =>
    intro st e he
    cases hb : env.aborted st.time with
    | true =>
      simp [processToolCalls, hb] at he
      subst he
      exact ⟨rfl, rfl⟩
    | false =>
      cases hp : env.parseArgs (if tc.arguments = "" then "\x7b\x7d" else tc.arguments) with
      | none =>
        simp [processToolCalls, hb, hp, appendMsg] at he
        rcases he with he | he | he | he
        · subst he; exact ⟨rfl, rfl⟩
        · subst he; exact ⟨rfl, rfl⟩
        · subst he; exact ⟨rfl, rfl⟩
        · exact ih _ e he
      | some parsed =>
        cases hx : env.execTool st.tool tc.name parsed with
        | ok pr =>
          simp [processToolCalls, hb, hp, hx, appendMsg] at he
          rcases he with he | he | he | he | he | he
          · subst he; exact ⟨rfl, rfl⟩
          · subst he; exact ⟨rfl, rfl⟩
          · subst he; exact ⟨rfl, rfl⟩
          · subst he; exact ⟨rfl, rfl⟩
          · subst he; exact ⟨rfl, rfl⟩
          · exact ih _ e he
        | error err =>
          simp [processToolCalls, hb, hp, hx, appendMsg] at he
          rcases he with he | he | he | he | he | he
          · subst he; exact ⟨rfl, rfl⟩
          · subst he; exact ⟨rfl, rfl⟩
          · subst he; exact ⟨rfl, rfl⟩
          · subst he; exact ⟨rfl, rfl⟩
          · subst he; exact ⟨rfl, rfl⟩
          · exact ih _ e he

theorem processToolCalls_dispatch_names {σ : Type} (env : Env σ)
    (hab : ∀ n, env.aborted n = false) :
    ∀ (tcs : List ToolCall) (st : EngineSt σ),
      (∀ tc ∈ tcs,
        (env.parseArgs (if tc.arguments = "" then "\x7b\x7d" else tc.arguments)).isSome =
          true) →
      (processToolCalls env tcs st).2.filterMap dispatchName? =
        tcs.map (fun tc => tc.name) := by
  intro tcs
  induction tcs with
  | nil =>
    intro st _
    simp [processToolCalls]
  | cons tc rest ih =>
    intro st hall
    have hp : (env.parseArgs
        (if tc.arguments = "" then "\x7b\x7d" else tc.arguments)).isSome = true :=
      hall tc (List.mem_cons_self _ _)
    obtain ⟨parsed, hps⟩ := Option.isSome_iff_exists.mp hp
    cases hx : env.execTool st.tool tc.name parsed with
    | ok pr =>
      simp [processToolCalls, hab, hps, hx, appendMsg, dispatchName?,
        ih _ (fun tc htc => hall tc (List.mem_cons_of_mem _ htc))]
    | error err =>
      simp [processToolCalls, hab, hps, hx, appendMsg, dispatchName?,
        ih _ (fun tc htc => hall tc (List.mem_cons_of_mem _ htc))]

theorem engineLoop_rounds {σ : Type} (env : Env σ) (sp : String)
    (history : List ConversationMessage)
    (hab : ∀ n, env.aborted n = false)
    (hresp : ∀ i msgs, ∃ r : Response, env.transport i msgs = .ok r ∧
      r.toolCalls ≠ [] ∧ r.finishReason = "tool_calls") :
    ∀ (fuel iteration : Nat) (st : EngineSt σ),
      ((engineLoop env sp history fuel iteration st).2.filter isTransportCall).length =
        fuel ∧
      (∀ e ∈ (engineLoop env sp history fuel iteration st).2, isErrorCb e = false) := by
  intro fuel
  induction fuel with
  | zero =>
    intro iteration st
    simp [engineLoop]
  | succ n ih =>
    intro iteration st
    obtain ⟨r, hr, hne, hfin⟩ :=
      hresp iteration (buildApiMessages sp history st.msgs)
    have hempty : r.toolCalls.isEmpty = false := by
      cases hc : r.toolCalls with
      | nil => exact absurd hc hne
      | cons a b => rfl
    have hcond : ¬ (r.finishReason ≠ "tool_calls" ∧ r.finishReason ≠ "function_call") := by
      intro hc
      exact hc.1 hfin
    have hT := processToolCalls_events env r.toolCalls
    constructor
    · simp only [engineLoop, hab, Bool.false_eq_true, if_false, hr, appendMsg,
        hempty, hcond]
      simp only [List.filter_append, List.length_append]
      have h1 : ∀ st' : EngineSt σ,
          ((processToolCalls env r.toolCalls st').2.filter isTransportCall) = [] := by
        intro st'
        rw [List.filter_eq_nil_iff]
        intro e he
        simp [(hT st' e he).1]
      rw [h1]
      have h2 : ∀ st' : EngineSt σ,
          ((engineLoop env sp history n (iteration + 1) st').2.filter
            isTransportCall).length = n :=
        fun st' => (ih (iteration + 1) st').1
      simp [isTransportCall, h2]
      omega
    · intro e he
      simp only [engineLoop, hab, Bool.false_eq_true, if_false, hr, appendMsg,
        hempty, hcond] at he
      simp at he
      rcases he with he | he | he | he | he
      · subst he; rfl
      · subst he; rfl
      · subst he; rfl
      · exact (hT _ _ he).2
      · exact (ih (iteration + 1) _).2 e he

/-- C2: when every completion response has finish reason tool_calls and a
non-empty tool-call list, and cancellation is never signaled and no run-fatal
exception occurs, runChatEngine performs exactly maxIterations
request/response rounds and then ends, and onError is never invoked — in
particular no error is reported for reaching the iteration cap. -/
theorem claim_C2 {σ : Type} (env : Env σ) (tool₀ : σ) (sp : String)
    (maxIterations : Nat) (history : List ConversationMessage) (u : String)
    (hab : ∀ n, env.aborted n = false)
    (hresp : ∀ i msgs, ∃ r : Response, env.transport i msgs = .ok r ∧
      r.toolCalls ≠ [] ∧ r.finishReason = "tool_calls") :
    ((runChatEngine env tool₀ sp maxIterations history u).2.filter
      isTransportCall).length = maxIterations ∧
    (∀ e ∈ (runChatEngine env tool₀ sp maxIterations history u).2,
      isErrorCb e = false) := by
  have h1 : ∀ st' : EngineSt σ,
      ((engineLoop env sp history maxIterations 0 st').2.filter
        isTransportCall).length = maxIterations :=
    fun st' => (engineLoop_rounds env sp history hab hresp maxIterations 0 st').1
  have h2 : ∀ (st' : EngineSt σ) e,
      e ∈ (engineLoop env sp history maxIterations 0 st').2 → isErrorCb e = false :=
    fun st' e he => (engineLoop_rounds env sp history hab hresp maxIterations 0 st').2 e he
  constructor
  · unfold runChatEngine
    simp [appendMsg, isTransportCall, h1]
  · intro e he
    unfold runChatEngine at he
    simp [appendMsg] at he
    rcases he with he | he
    · subst he; rfl
    · exact h2 _ e he

/-- Witness for C2: a model that requests tools forever, run with
maxIterations 3, performs exactly 3 rounds and reports no error. -/
theorem claim_C2_witness :
    ((runChatEngine demoEnvLoop () "" 3 [] "go").2.filter
      isTransportCall).length = 3 ∧
    (∀ e ∈ (runChatEngine demoEnvLoop () "" 3 [] "go").2, isErrorCb e = false) :=
  claim_C2 demoEnvLoop () "" 3 [] "go" (fun _ => rfl)
    (fun _ _ =>
      ⟨{ content := "",
         toolCalls := [{ id := "c", name := "vault_read_file", arguments := "A" }],
         finishReason := "tool_calls" }, rfl, by decide, rfl⟩)

/-- C3: a response whose tool-call list is non-empty but whose finish reason
is outside the continuation set still has every tool call dispatched, in list
order, after which the run ends without starting another request round. -/
theorem claim_C3 {σ : Type} (env : Env σ) (tool₀ : σ) (sp : String) (m : Nat)
    (history : List ConversationMessage) (u : String) (r : Response)
    (hab : ∀ n, env.aborted n = false)
    (hr : ∀ msgs, env.transport 0 msgs = .ok r)
    (hne : r.toolCalls ≠ [])
    (hf1 : r.finishReason ≠ "tool_calls") (hf2 : r.finishReason ≠ "function_call")
    (hparse : ∀ tc ∈ r.toolCalls,
      (env.parseArgs (if tc.arguments = "" then "\x7b\x7d" else tc.arguments)).isSome =
        true) :
    (runChatEngine env tool₀ sp (m + 1) history u).2.filterMap dispatchName? =
      r.toolCalls.map (fun tc => tc.name) ∧
    ((runChatEngine env tool₀ sp (m + 1) history u).2.filter
      isTransportCall).length = 1 := by
  have hempty : r.toolCalls.isEmpty = false := by
    cases hc : r.toolCalls with
    | nil => exact absurd hc hne
    | cons a b => rfl
  have hT := processToolCalls_events env r.toolCalls
  have hD : ∀ st' : EngineSt σ,
      (processToolCalls env r.toolCalls st').2.filterMap dispatchName? =
        r.toolCalls.map (fun tc => tc.name) :=
    fun st' => processToolCalls_dispatch_names env hab r.toolCalls st' hparse
  constructor
  · unfold runChatEngine
    simp [engineLoop, hab, hr, appendMsg, hempty, hf1, hf2, dispatchName?, hD]
  · unfold runChatEngine
    have hTfilter : ∀ st' : EngineSt σ,
        (processToolCalls env r.toolCalls st').2.filter isTransportCall = [] := by
      intro st'
      rw [List.filter_eq_nil_iff]
      intro e he
      simp [(hT st' e he).1]
    simp [engineLoop, hab, hr, appendMsg, hempty, hf1, hf2, isTransportCall, hTfilter]

/-- Witness for C3: a stop-finishing response carrying two tool calls has
both dispatched in order, and only one transport round occurs. -/
theorem claim_C3_witness :
    (runChatEngine demoEnvStop () "" 5 [] "go").2.filterMap dispatchName? =
      ([{ id := "c1", name := "vault_read_file", arguments := "A" },
        { id := "c2", name := "vault_list_files", arguments := "B" }] :
          List ToolCall).map (fun tc => tc.name) ∧
    ((runChatEngine demoEnvStop () "" 5 [] "go").2.filter
      isTransportCall).length = 1 :=
  claim_C3 demoEnvStop () "" 4 [] "go"
    { content := "also done",
      toolCalls := [{ id := "c1", name := "vault_read_file", arguments := "A" },
                    { id := "c2", name := "vault_list_files", arguments := "B" }],
      finishReason := "stop" }
    (fun _ => rfl) (fun _ => rfl) (by decide) (by decide) (by decide)
    (by intro tc htc; fin_cases htc <;> decide)

/-- C6: an exception raised during credential refresh, request assembly or
the completion exchange that is not attributable to cancellation terminates
the run after appending exactly one assistant message Error: <description>,
reports the error via onError, and starts no further round: the remaining
trace ends with the error callback and the append. -/
theorem claim_C6 {σ : Type} (env : Env σ) (sp : String)
    (history : List ConversationMessage) (fuel iteration : Nat)
    (st : EngineSt σ) (e : String)
    (hab : ∀ n, env.aborted n = false)
    (ht : env.transport iteration (buildApiMessages sp history st.msgs) = .error e)
    (h1 : jsIncludes e "abort" = false) (h2 : jsIncludes e "AbortError" = false) :
    engineLoop env sp history (fuel + 1) iteration st =
      ({ st with
           time := st.time + 3,
           nextId := st.nextId + 1,
           msgs := st.msgs ++
             [{ id := idStr st.nextId, role := .assistant,
                content := "Error: " ++ e }] },
       [Event.checkAbort false, Event.checkAbort false,
        Event.transportCall iteration, Event.checkAbort false,
        Event.errorCb e, Event.append .assistant]) := by
  simp [engineLoop, hab, ht, handleCatch, h1, h2, appendMsg]

/-- Witness for C6 at a concrete failing transport. -/
theorem claim_C6_witness :
    engineLoop demoEnvFail "" [] 5 0
        { time := 0, nextId := 0, msgs := [], tool := () } =
      ({ time := 0 + 3, nextId := 0 + 1,
         msgs := [] ++
           [{ id := idStr 0, role := .assistant,
              content := "Error: " ++ "Copilot API error (500): upstream" }],
         tool := () },
       [Event.checkAbort false, Event.checkAbort false, Event.transportCall 0,
        Event.checkAbort false, Event.errorCb "Copilot API error (500): upstream",
        Event.append .assistant]) :=
  claim_C6 demoEnvFail "" [] 4 0 { time := 0, nextId := 0, msgs := [], tool := () }
    "Copilot API error (500): upstream" (fun _ => rfl) rfl (by decide) (by decide)

/-! ### Cancellation quiescence (C4) -/

theorem quiet_post {tr : List Event} (hq : QuietShape tr) :
    ∀ pre post, tr = pre ++ Event.checkAbort true :: post → allChecks post := by
  obtain ⟨a, b, rfl, hna, hab⟩ := hq
  intro pre post heq
  rcases List.append_eq_append_iff.mp heq with ⟨a', ha1, ha2⟩ | ⟨c', hc1, hc2⟩
  · intro e he
    apply hab
    rw [ha2]
    exact List.mem_append.mpr (Or.inr (List.mem_cons_of_mem _ he))
  · cases c' with
    | nil =>
      simp only [List.nil_append] at hc2
      intro e he
      apply hab
      rw [← hc2]
      exact List.mem_cons_of_mem _ he
    | cons y c'' =>
      exfalso
      apply hna
      rw [hc1]
      have hy : y = Event.checkAbort true := by
        have h := hc2
        rw [List.cons_append] at h
        injection h with h1 _
        exact h1.symm
      rw [hy]
      exact List.mem_append.mpr (Or.inr (List.mem_cons_self _ _))

theorem stepOK_nil {ab : Nat → Bool} (t : Nat) : StepOK ab t t [] := by
  refine ⟨Nat.le_refl _, ?_, ?_, [], [], rfl, List.not_mem_nil _, ?_⟩
  · intro _ e he; cases he
  · intro h; exact absurd (List.not_mem_nil _) h
  · intro e he; cases he

theorem stepOK_observed {ab : Nat → Bool}
    (hmono : ∀ m n, m ≤ n → ab m = true → ab n = true) {t : Nat}
    (h : ab t = true) :
    StepOK ab t (t + 1) [Event.checkAbort true] := by
  refine ⟨Nat.le_succ _, ?_, ?_, [], [Event.checkAbort true], rfl,
    List.not_mem_nil _, ?_⟩
  · intro _ e he
    rcases List.mem_singleton.mp he with rfl
    rfl
  · intro _
    exact hmono t (t + 1) (Nat.le_succ _) h
  · intro e he
    rcases List.mem_singleton.mp he with rfl
    rfl

theorem stepOK_comp {ab : Nat → Bool}
    (hmono : ∀ m n, m ≤ n → ab m = true → ab n = true)
    {t₁ t₂ t₃ : Nat} {d₁ d₂ : List Event}
    (h1 : StepOK ab t₁ t₂ d₁) (h2 : StepOK ab t₂ t₃ d₂) :
    StepOK ab t₁ t₃ (d₁ ++ d₂) := by
  obtain ⟨hle1, hall1, htr1, a1, b1, rfl, hna1, hab1⟩ := h1
  obtain ⟨hle2, hall2, htr2, hq2⟩ := h2
  refine ⟨Nat.le_trans hle1 hle2, ?_, ?_, ?_⟩
  · intro h e he
    rcases List.mem_append.mp he with he | he
    · exact hall1 h e he
    · exact hall2 (hmono _ _ hle1 h) e he
  · intro hnt
    have hx := not_not.mp hnt
    rcases List.mem_append.mp hx with hx | hx
    · exact hmono _ _ hle2 (htr1 (fun hc => hc hx))
    · exact htr2 (fun hc => hc hx)
  · by_cases hxb : Event.checkAbort true ∈ b1
    · have hd2 : allChecks d₂ :=
        hall2 (htr1 (fun hc => hc (List.mem_append.mpr (Or.inr hxb))))
      refine ⟨a1, b1 ++ d₂, by rw [List.append_assoc], hna1, ?_⟩
      intro e he
      rcases List.mem_append.mp he with he | he
      · exact hab1 e he
      · exact hd2 e he
    · obtain ⟨a2, b2, rfl, hna2, hab2⟩ := hq2
      refine ⟨a1 ++ b1 ++ a2, b2, by simp [List.append_assoc], ?_, hab2⟩
      intro hc
      rcases List.mem_append.mp hc with hc | hc
      · rcases List.mem_append.mp hc with hc | hc
        · exact hna1 hc
        · exact hxb hc
      · exact hna2 hc

theorem stepOK_branch {ab : Nat → Bool} {t t' : Nat} {mid rest : List Event}
    (h : ab t = false) (hmid : noTrueCheck mid)
    (hrest : StepOK ab (t + 1) t' rest) :
    StepOK ab t t' (Event.checkAbort false :: (mid ++ rest)) := by
  obtain ⟨hle, hall, htr, a, b, rfl, hna, hab⟩ := hrest
  refine ⟨Nat.le_trans (Nat.le_succ _) hle, ?_, ?_, ?_⟩
  · intro hc
    rw [hc] at h
    cases h
  · intro hnt
    have hx := not_not.mp hnt
    rcases List.mem_cons.mp hx with hx | hx
    · cases hx
    · rcases List.mem_append.mp hx with hx | hx
      · exact absurd hx hmid
      · exact htr (fun hc => hc hx)
  · refine ⟨Event.checkAbort false :: (mid ++ a), b, by simp [List.append_assoc],
      ?_, hab⟩
    intro hc
    rcases List.mem_cons.mp hc with hc | hc
    · cases hc
    · rcases List.mem_append.mp hc with hc | hc
      · exact hmid hc
      · exact hna hc

theorem stepOK_checkFalse {ab : Nat → Bool} {t : Nat} (h : ab t = false) :
    StepOK ab t (t + 1) [Event.checkAbort false] := by
  refine ⟨Nat.le_succ _, ?_, ?_, [Event.checkAbort false], [], by simp, ?_, ?_⟩
  · intro hc
    rw [hc] at h
    cases h
  · intro hnt
    have hx := not_not.mp hnt
    rcases List.mem_singleton.mp hx with hx
    cases hx
  · intro hc
    rcases List.mem_singleton.mp hc with hc
    cases hc
  · intro e he
    cases he

theorem handleCatch_stepOK {σ : Type} (env : Env σ)
    (hmono : ∀ m n, m ≤ n → env.aborted m = true → env.aborted n = true)
    (e : String) (st : EngineSt σ) :
    StepOK env.aborted st.time (handleCatch env e st).1.time
      (handleCatch env e st).2 := by
  unfold handleCatch
  cases hb : env.aborted st.time with
  | true =>
    simp only [hb, true_or, if_true]
    simpa using stepOK_observed hmono hb
  | false =>
    by_cases hj : jsIncludes e "abort" = true ∨ jsIncludes e "AbortError" = true
    · simp only [hb, Bool.false_eq_true, false_or]
      rw [if_pos hj]
      simpa using stepOK_checkFalse hb
    · simp only [hb, Bool.false_eq_true, false_or, appendMsg]
      rw [if_neg hj]
      have hstep := @stepOK_branch env.aborted st.time (st.time + 1)
        [Event.errorCb e, Event.append .assistant] []
        hb (by simp [noTrueCheck]) (stepOK_nil (st.time + 1))
      simpa using hstep

theorem processToolCalls_stepOK {σ : Type} (env : Env σ)
    (hmono : ∀ m n, m ≤ n → env.aborted m = true → env.aborted n = true) :
    ∀ (tcs : List ToolCall) (st : EngineSt σ),
      StepOK env.aborted st.time (processToolCalls env tcs st).1.time
        (processToolCalls env tcs st).2 := by
  intro tcs
  induction tcs with
  | nil =>
    intro st
    simpa [processToolCalls] using stepOK_nil st.time
  | cons tc rest ih =>
    intro st
    cases hb : env.aborted st.time with
    | true =>
      simp only [processToolCalls, hb, if_true]
      simpa using stepOK_observed hmono hb
    | false =>
      cases hp : env.parseArgs (if tc.arguments = "" then "\x7b\x7d" else tc.arguments) with
      | none =>
        have hrest := ih { st with
          time := st.time + 1, nextId := st.nextId + 1,
          msgs := st.msgs ++
            [{ id := idStr st.nextId, role := .tool,
               content := "Error: Failed to parse arguments: " ++ tc.arguments,
               toolCallId := some tc.id }] }
        have hstep := @stepOK_branch env.aborted st.time _
          [Event.append .tool,
           Event.outcome { toolCallId := tc.id, toolName := tc.name, args := [],
                           status := .error,
                           error := some "Failed to parse arguments" }]
          _ hb (by simp [noTrueCheck]) (by simpa using hrest)
        simp only [processToolCalls, hb, Bool.false_eq_true, if_false, hp, appendMsg]
        simpa using hstep
      | some parsed =>
        cases hx : env.execTool st.tool tc.name parsed with
        | ok pr =>
          obtain ⟨res, tool'⟩ := pr
          have hrest := ih { st with
            time := st.time + 1, nextId := st.nextId + 1,
            msgs := st.msgs ++
              [{ id := idStr st.nextId, role := .tool, content := res,
                 toolCallId := some tc.id }],
            tool := tool' }
          have hstep := @stepOK_branch env.aborted st.time _
            [Event.outcome { toolCallId := tc.id, toolName := tc.name,
                             args := parsed, status := .running },
             Event.dispatch tc.name,
             Event.outcome { toolCallId := tc.id, toolName := tc.name,
                             args := parsed, status := .success,
                             result := some res },
             Event.append .tool]
            _ hb (by simp [noTrueCheck]) (by simpa using hrest)
          simp only [processToolCalls, hb, Bool.false_eq_true, if_false, hp, hx,
            appendMsg]
          simpa using hstep
        | error err =>
          have hrest := ih { st with
            time := st.time + 1, nextId := st.nextId + 1,
            msgs := st.msgs ++
              [{ id := idStr st.nextId, role := .tool,
                 content := "Error: " ++ err, toolCallId := some tc.id }] }
          have hstep := @stepOK_branch env.aborted st.time _
            [Event.outcome { toolCallId := tc.id, toolName := tc.name,
                             args := parsed, status := .running },
             Event.dispatch tc.name,
             Event.outcome { toolCallId := tc.id, toolName := tc.name,
                             args := parsed, status := .error,
                             error := some err },
             Event.append .tool]
            _ hb (by simp [noTrueCheck]) (by simpa using hrest)
          simp only [processToolCalls, hb, Bool.false_eq_true, if_false, hp, hx,
            appendMsg]
          simpa using hstep

theorem engineLoop_stepOK {σ : Type} (env : Env σ) (sp : String)
    (history : List ConversationMessage)
    (hmono : ∀ m n, m ≤ n → env.aborted m = true → env.aborted n = true) :
    ∀ (fuel iteration : Nat) (st : EngineSt σ),
      StepOK env.aborted st.time
        (engineLoop env sp history fuel iteration st).1.time
        (engineLoop env sp history fuel iteration st).2 := by
  intro fuel
  induction fuel with
  | zero =>
    intro iteration st
    simpa [engineLoop] using stepOK_nil st.time
  | succ n ih =>
    intro iteration st
    cases hb : env.aborted st.time with
    | true =>
      simp only [engineLoop, hb, if_true]
      simpa using stepOK_observed hmono hb
    | false =>
      cases hb2 : env.aborted (st.time + 1) with
      | true =>
        have hcatch := handleCatch_stepOK env hmono "Request aborted"
          { st with time := st.time + 1 + 1 }
        have hrest := stepOK_comp hmono
          (by simpa using stepOK_observed hmono hb2) (by simpa using hcatch)
        have hstep := @stepOK_branch env.aborted st.time _ [] _
          hb (by simp [noTrueCheck]) hrest
        simp only [engineLoop, hb, Bool.false_eq_true, if_false, hb2, if_true]
        simpa using hstep
      | false =>
        cases ht : env.transport iteration (buildApiMessages sp history st.msgs) with
        | error e =>
          have hcatch := handleCatch_stepOK env hmono e
            { st with time := st.time + 1 + 1 }
          have hinner := @stepOK_branch env.aborted (st.time + 1) _
            [Event.transportCall iteration] _
            hb2 (by simp [noTrueCheck]) (by simpa using hcatch)
          have hstep := @stepOK_branch env.aborted st.time _ [] _
            hb (by simp [noTrueCheck]) hinner
          simp only [engineLoop, hb, Bool.false_eq_true, if_false, hb2, ht,
            appendMsg]
          simpa using hstep
        | ok r =>
          cases hempty : r.toolCalls.isEmpty with
          | true =>
            have hinner := @stepOK_branch env.aborted (st.time + 1) _
              [Event.transportCall iteration, Event.append .assistant] _
              hb2 (by simp [noTrueCheck]) (stepOK_nil (st.time + 1 + 1))
            have hstep := @stepOK_branch env.aborted st.time _ [] _
              hb (by simp [noTrueCheck]) hinner
            simp only [engineLoop, hb, Bool.false_eq_true, if_false, hb2, ht,
              appendMsg, hempty, if_true]
            simpa using hstep
          | false =>
            have hT := processToolCalls_stepOK env hmono r.toolCalls
              { st with
                time := st.time + 1 + 1, nextId := st.nextId + 1,
                msgs := st.msgs ++
                  [{ id := idStr st.nextId, role := .assistant,
                     content := r.content, toolCalls := r.toolCalls }] }
            by_cases hfin : r.finishReason ≠ "tool_calls" ∧
                r.finishReason ≠ "function_call"
            · have hinner := @stepOK_branch env.aborted (st.time + 1) _
                [Event.transportCall iteration, Event.append .assistant] _
                hb2 (by simp [noTrueCheck]) (by simpa using hT)
              have hstep := @stepOK_branch env.aborted st.time _ [] _
                hb (by simp [noTrueCheck]) hinner
              simp only [engineLoop, hb, Bool.false_eq_true, if_false, hb2, ht,
                appendMsg, hempty, if_pos hfin]
              simpa using hstep
            · have hL := ih (iteration + 1)
                (processToolCalls env r.toolCalls
                  { st with
                    time := st.time + 1 + 1, nextId := st.nextId + 1,
                    msgs := st.msgs ++
                      [{ id := idStr st.nextId, role := .assistant,
                         content := r.content, toolCalls := r.toolCalls }] }).1
              have hTL := stepOK_comp hmono (by simpa using hT) hL
              have hinner := @stepOK_branch env.aborted (st.time + 1) _
                [Event.transportCall iteration, Event.append .assistant] _
                hb2 (by simp [noTrueCheck]) hTL
              have hstep := @stepOK_branch env.aborted st.time _ [] _
                hb (by simp [noTrueCheck]) hinner
              simp only [engineLoop, hb, Bool.false_eq_true, if_false, hb2, ht,
                appendMsg, hempty, if_neg hfin]
              simpa using hstep

theorem handleCatch_msgs {σ : Type} (env : Env σ) (e : String) (st : EngineSt σ) :
    (handleCatch env e st).1.msgs.length =
      st.msgs.length + ((handleCatch env e st).2.filter isAppend).length := by
  unfold handleCatch
  by_cases hcond : env.aborted st.time = true ∨ jsIncludes e "abort" = true ∨
      jsIncludes e "AbortError" = true
  · rw [if_pos hcond]
    simp [isAppend]
  · rw [if_neg hcond]
    simp [appendMsg, isAppend]

theorem processToolCalls_msgs {σ : Type} (env : Env σ) :
    ∀ (tcs : List ToolCall) (st : EngineSt σ),
      (processToolCalls env tcs st).1.msgs.length =
        st.msgs.length + ((processToolCalls env tcs st).2.filter isAppend).length := by
  intro tcs
  induction tcs with
  | nil => intro st; simp [processToolCalls]
  | cons tc rest ih =>
    intro st
    cases hb : env.aborted st.time with
    | true => simp [processToolCalls, hb, isAppend]
    | false =>
      cases hp : env.parseArgs (if tc.arguments = "" then "\x7b\x7d" else tc.arguments) with
      | none =>
        simp only [processToolCalls, hb, Bool.false_eq_true, if_false, hp,
          appendMsg]
        simp [List.filter_append, isAppend, ih]
        omega
      | some parsed =>
        cases hx : env.execTool st.tool tc.name parsed with
        | ok pr =>
          obtain ⟨res, tool'⟩ := pr
          simp only [processToolCalls, hb, Bool.false_eq_true, if_false, hp, hx,
            appendMsg]
          simp [List.filter_append, isAppend, ih]
          omega
        | error err =>
          simp only [processToolCalls, hb, Bool.false_eq_true, if_false, hp, hx,
            appendMsg]
          simp [List.filter_append, isAppend, ih]
          omega

theorem engineLoop_msgs {σ : Type} (env : Env σ) (sp : String)
    (history : List ConversationMessage) :
    ∀ (fuel iteration : Nat) (st : EngineSt σ),
      (engineLoop env sp history fuel iteration st).1.msgs.length =
        st.msgs.length +
          ((engineLoop env sp history fuel iteration st).2.filter isAppend).length := by
  intro fuel
  induction fuel with
  | zero => intro iteration st; simp [engineLoop]
  | succ n ih =>
    intro iteration st
    cases hb : env.aborted st.time with
    | true => simp [engineLoop, hb, isAppend]
    | false =>
      cases hb2 : env.aborted (st.time + 1) with
      | true =>
        simp only [engineLoop, hb, Bool.false_eq_true, if_false, hb2, if_true]
        simp [List.filter_append, isAppend, handleCatch_msgs]
      | false =>
        cases ht : env.transport iteration (buildApiMessages sp history st.msgs) with
        | error e =>
          simp only [engineLoop, hb, Bool.false_eq_true, if_false, hb2, ht]
          simp [List.filter_append, isAppend, handleCatch_msgs]
        | ok r =>
          cases hempty : r.toolCalls.isEmpty with
          | true =>
            simp only [engineLoop, hb, Bool.false_eq_true, if_false, hb2, ht,
              appendMsg, hempty, if_true]
            simp [List.filter_append, isAppend]
          | false =>
            by_cases hfin : r.finishReason ≠ "tool_calls" ∧
                r.finishReason ≠ "function_call"
            · simp only [engineLoop, hb, Bool.false_eq_true, if_false, hb2, ht,
                appendMsg, hempty, if_pos hfin]
              simp [List.filter_append, isAppend, processToolCalls_msgs]
              omega
            · simp only [engineLoop, hb, Bool.false_eq_true, if_false, hb2, ht,
                appendMsg, hempty, if_neg hfin]
              simp [List.filter_append, isAppend, processToolCalls_msgs, ih]
              omega

/-- C4: under a monotone (sticky) abort signal, once cancellation is observed
in the run trace every later event is again an abort observation — in
particular no further completion-transport call, no tool dispatch, no message
append and no onError invocation follow — and the returned message list
consists exactly of the messages appended during the run (one per append
event), i.e. whatever had already been appended when cancellation was
observed. -/
theorem claim_C4 {σ : Type} (env : Env σ) (tool₀ : σ) (sp : String)
    (maxIterations : Nat) (history : List ConversationMessage) (u : String)
    (hmono : ∀ m n, m ≤ n → env.aborted m = true → env.aborted n = true) :
    (∀ pre post,
        (runChatEngine env tool₀ sp maxIterations history u).2 =
          pre ++ Event.checkAbort true :: post →
        ∀ e ∈ post, isCheck e = true ∧ isTransportCall e = false ∧
          dispatchName? e = none ∧ isErrorCb e = false ∧ isAppend e = false) ∧
    (runChatEngine env tool₀ sp maxIterations history u).1.length =
      ((runChatEngine env tool₀ sp maxIterations history u).2.filter
        isAppend).length := by
  have hquiet := (engineLoop_stepOK env sp history hmono maxIterations 0
    { time := 0, nextId := 1,
      msgs := [{ id := idStr 0, role := .user, content := u,
                 toolCalls := [], toolCallId := none }],
      tool := tool₀ }).2.2.2
  have hlen := engineLoop_msgs env sp history maxIterations 0
    { time := 0, nextId := 1,
      msgs := [{ id := idStr 0, role := .user, content := u,
                 toolCalls := [], toolCallId := none }],
      tool := tool₀ }
  constructor
  · intro pre post heq e he
    obtain ⟨a, b, hd, hna, hab⟩ := hquiet
    have hq2 : QuietShape
        ((runChatEngine env tool₀ sp maxIterations history u).2) := by
      refine ⟨Event.append Role.user :: a, b, ?_, ?_, hab⟩
      · simp only [runChatEngine, appendMsg]
        simp [hd]
      · intro hmem
        rcases List.mem_cons.mp hmem with hx | hx
        · exact Event.noConfusion hx
        · exact hna hx
    have hc := quiet_post hq2 pre post heq e he
    cases e <;> simp_all [isCheck, isTransportCall, dispatchName?, isErrorCb,
      isAppend]
  · simp only [runChatEngine, appendMsg]
    simp only [List.filter_cons, List.filter_append]
    simp [isAppend, hlen]
    omega

theorem claim_C4_witness :
    ((∀ pre post, demoRunAbort.2 = pre ++ Event.checkAbort true :: post →
        ∀ e ∈ post, isCheck e = true ∧ isTransportCall e = false ∧
          dispatchName? e = none ∧ isErrorCb e = false ∧ isAppend e = false) ∧
      demoRunAbort.1.length = (demoRunAbort.2.filter isAppend).length) ∧
    (demoRunAbort.1.map (fun m => m.role) = [Role.user, Role.assistant] ∧
      demoRunAbort.2.filterMap dispatchName? = [] ∧
      demoRunAbort.2.filter isErrorCb = []) :=
  ⟨claim_C4 demoEnvAbort () "" 5 [] "list files"
      (fun m n hmn hm => by
        simp only [demoEnvAbort, decide_eq_true_eq] at hm ⊢
        omega),
    by decide⟩
